import Mathlib

/-!
Shallow embedding of `.github/scripts/generate_manifests.py` (the manifest
generation pipeline of the ceresa-manifest-mill repository), together with
theorems settling the frozen claims about it.

Modelling conventions:

* Python JSON values are modelled by the inductive `Json`; machine strings by
  Lean `String` (Python 3 strings are sequences of code points, as are Lean
  strings at the `List Char` level).
* Whitespace classes use the ASCII whitespace set (space, tab, LF, CR, VT, FF),
  matching Python's `\s` / `str.strip` on ASCII input.
* The network is an oracle `net : String → NetResult` mapping a URL to either a
  parsed 2xx JSON body or a transport/HTTP exception; `fetch_info_json` is the
  source function folded over that oracle.
* The third-party manifest builder (`IIIFpres.iiifpapi3`) is out of the
  repository and is treated, as in the code, as a builder whose
  `add_canvas_to_items` appends a canvas to the manifest's item list and whose
  setter calls may raise.  Exceptions raised by builder calls are modelled by a
  per-path oracle `bo : String → BuildOutcome` distinguishing whether the
  exception happens before or after the canvas was appended (with its id set).
* `json_dumps` is an oracle `dumps : Manifest → DumpRes`.
-/

/-- Model of a parsed Python JSON value (floats do not occur in the data the
script reads: `width`/`height` are integers, and everything else is handled
structurally). -/
inductive Json where
  | null : Json
  | bool : Bool → Json
  | num : Int → Json
  | str : String → Json
  | arr : List Json → Json
  | obj : List (String × Json) → Json
deriving Repr

/-- Python truthiness of a JSON value (`bool(v)`). -/
def truthy : Json → Bool
  | .null => false
  | .bool b => b
  | .num n => n != 0
  | .str s => s != ""
  | .arr xs => !xs.isEmpty
  | .obj kvs => !kvs.isEmpty

/-- `info.get(k, d)` on a dict; on a non-dict this helper is never used by the
model (the model raises instead, as the script does). -/
def jget (j : Json) (k : String) (d : Json) : Json :=
  match j with
  | .obj kvs => (kvs.lookup k).getD d
  | _ => d

/-- ASCII whitespace, the characters matched by `\s` / stripped by `strip()`
on the script's input. -/
def pyIsSpace (c : Char) : Bool :=
  c.toNat = 32 || c.toNat = 9 || c.toNat = 10 || c.toNat = 13 ||
  c.toNat = 11 || c.toNat = 12

/-- The character class `[0-9a-fA-F]` of the checksum regex. -/
def isHexD (c : Char) : Bool :=
  (48 ≤ c.toNat && c.toNat ≤ 57) || (97 ≤ c.toNat && c.toNat ≤ 102) ||
  (65 ≤ c.toNat && c.toNat ≤ 70)

/-- Python `str.strip()` (ASCII whitespace). -/
def pyStrip (s : String) : String :=
  ⟨((s.data.dropWhile pyIsSpace).reverse.dropWhile pyIsSpace).reverse⟩

/-- Python `str.lower()` (ASCII case folding suffices for the extensions the
script tests). -/
def pyLower (s : String) : String := ⟨s.data.map Char.toLower⟩

/-- `rstrip('/')` at the character-list level. -/
def rstripSlashesL (l : List Char) : List Char :=
  (l.reverse.dropWhile (fun c => c = '/')).reverse

/-- Python `str.rstrip('/')`: removes every trailing slash. -/
def rstripSlashes (s : String) : String := ⟨rstripSlashesL s.data⟩

/-- Python `str.strip('/')`: removes leading and trailing slashes. -/
def stripSlashes (s : String) : String :=
  ⟨rstripSlashesL (s.data.dropWhile (fun c => c = '/'))⟩

/-- Python `str.split('/')` at the character-list level (no maxsplit):
always returns at least one segment; adjacent separators yield empty
segments. -/
def splitSlash : List Char → List (List Char)
  | [] => [[]]
  | c :: cs =>
    match splitSlash cs with
    | [] => [[]]
    | seg :: rest =>
      if c = '/' then [] :: seg :: rest else (c :: seg) :: rest

/-- Python `p.split('/')` on a string. -/
def pySplitSlash (p : String) : List String :=
  (splitSlash p.data).map (fun l => (⟨l⟩ : String))

/-- `os.path.basename`: the part of the path after the last `/`. -/
def basename (p : String) : String := (pySplitSlash p).getLastD p

/-- Python `str.replace(pat, rep)`, fuelled so that it reduces
definitionally: each step consumes at least one character, so fuel equal to
the input length always suffices. -/
def replaceAllFuel (pat rep : List Char) : Nat → List Char → List Char
  | _, [] => []
  | 0, l => l
  | fuel + 1, c :: cs =>
    if pat ≠ [] ∧ pat.isPrefixOf (c :: cs) then
      rep ++ replaceAllFuel pat rep fuel (cs.drop (pat.length - 1))
    else
      c :: replaceAllFuel pat rep fuel cs

/-- Python `str.replace(pat, rep)`: replaces every non-overlapping occurrence,
scanning left to right (character-list level). -/
def replaceAllL (pat rep l : List Char) : List Char :=
  replaceAllFuel pat rep l.length l

/-- `generate_manifests.build_service_id`.  A `ValueError` is modelled by
`Except.error` carrying `str(e)`. -/
def build_service_id (iiif_base project_segment path0 : String) :
    Except String String :=
  let path := pyStrip path0
  if "http://".data.isPrefixOf path.data || "https://".data.isPrefixOf path.data then
    .ok ⟨replaceAllL "/info.json".data [] (rstripSlashesL path.data)⟩
  else if iiif_base = "" then
    .error ("No IIIF_IMAGE_BASE provided and path is not a URL: " ++ path)
  else
    let filename := basename path
    let ib := rstripSlashes iiif_base
    let seg := stripSlashes project_segment
    let service :=
      if seg ≠ "" then ib ++ "/" ++ seg ++ "/" ++ filename
      else ib ++ "/" ++ filename
    .ok (rstripSlashes service)

/-- `generate_manifests.doc_and_filename_from_path`.  The final catch-all
branch of the source is unreachable (`split` always returns at least one
segment) but is transcribed anyway. -/
def doc_and_filename_from_path (p : String) : String × String :=
  let parts := pySplitSlash (pyStrip p)
  if parts.length = 1 then ("root", parts.getLastD "")
  else if 2 ≤ parts.length then
    (parts.getD (parts.length - 2) "", parts.getLastD "")
  else ("root", p)

/-- Document key of a path (first component of `doc_and_filename_from_path`). -/
def docKeyOf (p : String) : String := (doc_and_filename_from_path p).1

/-- `grouped[doc].append(p)` on a `defaultdict(list)` whose keys keep insertion
order (Python dict semantics). -/
def dictAppend : List (String × List String) → String → String →
    List (String × List String)
  | [], k, v => [(k, [v])]
  | (k0, vs) :: rest, k, v =>
    if k0 = k then (k0, vs ++ [v]) :: rest
    else (k0, vs) :: dictAppend rest k v

/-- The grouping loop of `main` folded over the parsed paths. -/
def groupInto : List (String × List String) → List String →
    List (String × List String)
  | g, [] => g
  | g, p :: ps => groupInto (dictAppend g (docKeyOf p) p) ps

/-- `grouped = defaultdict(list); for p in paths: grouped[doc].append(p)`. -/
def groupPaths (paths : List String) : List (String × List String) :=
  groupInto [] paths

/-! ### The checksum-line regex

`parse_all_manifests` matches each line against
`^\s*([0-9a-fA-F]+)\s+(.+?)\s*$` and keeps group 2 when the match succeeds.
The functions below implement exactly the backtracking search of that pattern:
the leading `\s*` is forced to the maximal whitespace run (whitespace and hex
digits are disjoint), the checksum `+` and the separator `\s+` are greedy
(longest attempt first), the payload `(.+?)` is lazy (shortest attempt first),
and `\s*$` requires the remainder to be whitespace. -/

/-- Lazy `(.+?)\s*$`: returns the shortest nonempty prefix whose remainder is
all whitespace (`.` matches any character here: the line contains no `\n`). -/
def lazyGroup2 (acc : List Char) : List Char → Option (List Char)
  | [] => none
  | c :: cs =>
    if cs.all pyIsSpace then some (acc ++ [c])
    else lazyGroup2 (acc ++ [c]) cs

/-- Greedy `\s+`: tries separator lengths `w, w-1, …, 1`. -/
def wsLoop (after : List Char) : Nat → Option (List Char)
  | 0 => none
  | w + 1 =>
    match lazyGroup2 [] (after.drop (w + 1)) with
    | some g => some g
    | none => wsLoop after w

/-- Greedy `[0-9a-fA-F]+`: tries checksum lengths `h, h-1, …, 1`. -/
def hLoop (rest : List Char) : Nat → Option (List Char)
  | 0 => none
  | h + 1 =>
    match wsLoop (rest.drop (h + 1))
        ((rest.drop (h + 1)).takeWhile pyIsSpace).length with
    | some g => some g
    | none => hLoop rest h

/-- Group 2 of `re.match(r'^\s*([0-9a-fA-F]+)\s+(.+?)\s*$', line)`,
or `none` when the line does not match. -/
def reMatchGroup2 (l : List Char) : Option (List Char) :=
  hLoop (l.dropWhile pyIsSpace)
    (((l.dropWhile pyIsSpace).takeWhile isHexD)).length

/-- `generate_manifests.parse_all_manifests`, taking the file's lines (without
their trailing newlines, which the source removes with `rstrip('\n')`). -/
def parse_all_manifests : List String → List String
  | [] => []
  | ln :: lns =>
    if pyStrip ln = "" then parse_all_manifests lns
    else
      match reMatchGroup2 ln.data with
      | some g => String.mk g :: parse_all_manifests lns
      | none => pyStrip ln :: parse_all_manifests lns

/-- Per-line behaviour of the parser (used to state order preservation). -/
def lineOut (ln : String) : Option String :=
  if pyStrip ln = "" then none
  else
    match reMatchGroup2 ln.data with
    | some g => some (String.mk g)
    | none => some (pyStrip ln)

/-! ### Dimension fetcher -/

/-- Outcome of one HTTP GET as seen by `fetch_info_json`: either a 2xx
response whose body parsed as JSON, or an exception (transport error,
non-2xx from `raise_for_status`, malformed body).  `exc` carries `str(e)`
and the status code the source extracts from `e.response` (or `none`). -/
inductive NetResult where
  | ok : Json → NetResult
  | exc : String → Option Int → NetResult

/-- The error dictionary `fetch_info_json` builds on an exception. -/
def errDict (msg : String) (status : Option Int) (info_url : String) : Json :=
  .obj [("error", .str msg),
        ("status_code", match status with | some n => .num n | none => .null),
        ("info_url", .str info_url)]

/-- `generate_manifests.fetch_info_json` over a network oracle `net`. -/
def fetch_info_json (net : String → NetResult) (service_id : String) : Json :=
  let info_url := rstripSlashes service_id ++ "/info.json"
  match net info_url with
  | .ok body => body
  | .exc msg status => errDict msg status info_url

/-- Python `int(v)` on the JSON values the script can pass to it, as
`Option`: `none` models the `TypeError`/`ValueError` that `safe_int`
catches.  String conversion accepts optional sign and ASCII digits after
stripping whitespace. -/
def toIntPy : Json → Option Int
  | .num n => some n
  | .bool b => some (if b then 1 else 0)
  | .str s =>
    let t := pyStrip s
    if "+".data.isPrefixOf t.data then (t.drop 1).toNat?.map Int.ofNat
    else t.toInt?
  | _ => none

/-- `generate_manifests.safe_int`. -/
def safe_int (v : Json) (default : Int) : Int := (toIntPy v).getD default

/-! ### Manifest assembler -/

/-- How the per-item canvas-construction `try` block behaves for a path: the
builder calls succeed, or one of them raises.  `throwBefore` models an
exception raised by `manifest.add_canvas_to_items()` itself (nothing was
appended); `throwAfter` models an exception raised by a later builder call
(e.g. `set_format`/`set_profile`), after the canvas object was appended to the
manifest's item list and its id (carrying the current counter value) was set.
The argument is `str(e)`. -/
inductive BuildOutcome where
  | ok : BuildOutcome
  | throwBefore : String → BuildOutcome
  | throwAfter : String → BuildOutcome

/-- A fully constructed canvas with everything the `try` block sets on it.
`srcPath` records the originating member path (specification ghost data used
to state ordering claims; the script keeps this association through its
sorted iteration). -/
structure CanvasFull where
  index : Nat
  srcPath : String
  id : String
  width : Int
  height : Int
  label : String
  annopageId : String
  annotationId : String
  annotationTarget : String
  motivation : String
  bodyId : String
  bodyType : String
  bodyFormat : String
  bodyWidth : Int
  bodyHeight : Int
  serviceId : String
  serviceType : String
  serviceProfile : Json
deriving Repr

/-- An entry of the manifest's item list: either a fully constructed canvas,
or a partially constructed one left behind by a `throwAfter` exception (the
rollback `canvases_created -= 1` decrements the counter but removes nothing
from the manifest). -/
inductive Canvas where
  | full : CanvasFull → Canvas
  | halfBuilt : Nat → String → Canvas
deriving Repr

/-- Index of a canvas (for `halfBuilt` the counter value it was built with,
i.e. the `p{n}` of its id). -/
def canvasIndex : Canvas → Nat
  | .full c => c.index
  | .halfBuilt n _ => n

/-- Originating member path of a canvas. -/
def canvasPath : Canvas → String
  | .full c => c.srcPath
  | .halfBuilt _ p => p

/-- The manifest container (id, label, behavior, item list). -/
structure Manifest where
  id : String
  label : String
  behavior : List String
  items : List Canvas
deriving Repr

/-- The `iiifpapi3.BASE_URL` the script installs before building: the
configured presentation base with trailing slashes stripped and one slash
appended, or the library placeholder when the configuration is empty. -/
def baseOf (pbase : String) : String :=
  if pbase ≠ "" then rstripSlashes pbase ++ "/" else "https://example.org/iiif/"

/-- `'formats' in info and isinstance(info['formats'], list) and info['formats']`. -/
def hasFormatsList (info : Json) : Bool :=
  match info with
  | .obj kvs =>
    match kvs.lookup "formats" with
    | some (.arr (_ :: _)) => true
    | _ => false
  | _ => false

/-- `p.lower().endswith(('.tif', '.tiff'))`. -/
def tifExt (p : String) : Bool :=
  ".tif".data.isSuffixOf (pyLower p).data || ".tiff".data.isSuffixOf (pyLower p).data

/-- The media type the script assigns to the image body. -/
def fmtOf (p : String) (info : Json) : String :=
  if hasFormatsList info then "image/jpeg"
  else if tifExt p then "image/tiff"
  else "image/jpeg"

/-- The profile passed to `s.set_profile`: `"level1"`, overridden by a string
profile or the first entry of a list profile. -/
def profileOf (info : Json) : Json :=
  match jget info "profile" .null with
  | .str s => .str s
  | .arr (x :: _) => x
  | _ => .str "level1"

/-- `str(n).zfill(4)`. -/
def zfill4 (n : Nat) : String :=
  let s := toString n
  ⟨List.replicate (4 - s.length) '0' ++ s.data⟩

/-- `isinstance(info, dict) and info.get('error')` (line 140). -/
def errTruthy (info : Json) : Bool :=
  match info with
  | .obj _ => truthy (jget info "error" .null)
  | _ => false

/-- Python type name, for the `AttributeError` message raised by
`info.get` when `info` is not a dict. -/
def pyTypeName : Json → String
  | .null => "NoneType"
  | .bool _ => "bool"
  | .num _ => "int"
  | .str _ => "str"
  | .arr _ => "list"
  | .obj _ => "dict"

/-- The uncaught `AttributeError` raised at `info.get('width', 0)` when the
fetched body is not a dict (that line sits outside the per-item `try`). -/
def attrErrMsg (info : Json) : String :=
  "AttributeError: " ++ pyTypeName info ++ " object has no attribute get"

/-- The quote character used by Python `repr` on strings. -/
def pyQuote : String := String.singleton (Char.ofNat 39)

mutual

/-- Simplified Python `repr` of a JSON value (string quoting uses a plain
quote character; escaping is not modelled — only used inside report text). -/
def pyRepr : Json → String
  | .null => "None"
  | .bool b => if b then "True" else "False"
  | .num n => toString n
  | .str s => pyQuote ++ s ++ pyQuote
  | .arr xs => "[" ++ pyReprList xs ++ "]"
  | .obj kvs => "\x7b" ++ pyReprObj kvs ++ "\x7d"

/-- Comma-joined `repr`s of the entries of a list. -/
def pyReprList : List Json → String
  | [] => ""
  | [x] => pyRepr x
  | x :: y :: xs => pyRepr x ++ ", " ++ pyReprList (y :: xs)

/-- Comma-joined `repr`s of the entries of a dict. -/
def pyReprObj : List (String × Json) → String
  | [] => ""
  | [(k, v)] => pyQuote ++ k ++ pyQuote ++ ": " ++ pyRepr v
  | (k, v) :: kv :: kvs =>
    pyQuote ++ k ++ pyQuote ++ ": " ++ pyRepr v ++ ", " ++ pyReprObj (kv :: kvs)

end

/-- Simplified Python `str()` (what an f-string interpolates). -/
def pyStr : Json → String
  | .str s => s
  | j => pyRepr j

/-- The failure message for a fetch failure (line 141). -/
def fetchFailMsg (info : Json) (service_id : String) : String :=
  "info.json fetch failed for " ++
    pyStr (jget info "info_url" (.str (service_id ++ "/info.json"))) ++
    ": " ++ pyStr (jget info "error" .null)

/-- All the fields the `try` block sets on a successfully built canvas. -/
def mkCanvas (base p service_id : String) (info : Json) (width height : Int)
    (n : Nat) : CanvasFull :=
  { index := n
    srcPath := p
    id := base ++ "canvas/p" ++ toString n
    width := width
    height := height
    label := basename p
    annopageId := base ++ "page/p" ++ toString n ++ "/1"
    annotationId := base ++ "annotation/p" ++ zfill4 n ++ "-image"
    annotationTarget := base ++ "canvas/p" ++ toString n
    motivation := "painting"
    bodyId := service_id
    bodyType := "Image"
    bodyFormat := fmtOf p info
    bodyWidth := width
    bodyHeight := height
    serviceId := service_id
    serviceType := "ImageService3"
    serviceProfile := profileOf info }

/-- Mutable state of the post-collection pass: accumulated manifest items,
`canvases_created`, accumulated failures. -/
structure AsmState where
  canvases : List Canvas
  counter : Nat
  failures : List (String × String)
deriving Repr

/-- One iteration of `for p in items` (lines 134–190).  `results` is the
path-keyed dictionary built from the completed futures; a missing key means
the path was skipped by a service-id build failure.  The `AttributeError`
raised outside the `try` block when `info` is not a dict propagates as
`Except.error`. -/
def processItem (base : String) (bo : String → BuildOutcome)
    (results : List (String × (Json × String))) (st : AsmState) (p : String) :
    Except String AsmState :=
  match results.lookup p with
  | none => .ok st
  | some (info, service_id) =>
    if errTruthy info then
      .ok { st with failures := st.failures ++ [(p, fetchFailMsg info service_id)] }
    else
      match info with
      | .obj _ =>
        let width := safe_int (jget info "width" (.num 0)) 0
        let height := safe_int (jget info "height" (.num 0)) 0
        let n := st.counter + 1
        match bo p with
        | .ok =>
          .ok { st with
                counter := n
                canvases := st.canvases ++
                  [.full (mkCanvas base p service_id info width height n)] }
        | .throwBefore msg =>
          .ok { st with failures := st.failures ++
                  [(p, "manifest/canvas creation error: " ++ msg)] }
        | .throwAfter msg =>
          .ok { st with
                canvases := st.canvases ++ [.halfBuilt n p]
                failures := st.failures ++
                  [(p, "manifest/canvas creation error: " ++ msg)] }
      | _ => .error (attrErrMsg info)

/-- The whole post-collection pass over the sorted item list. -/
def processItems (base : String) (bo : String → BuildOutcome)
    (results : List (String × (Json × String))) :
    AsmState → List String → Except String AsmState
  | st, [] => .ok st
  | st, p :: ps =>
    match processItem base bo results st p with
    | .error e => .error e
    | .ok st' => processItems base bo results st' ps

/-- The submission loop (lines 117–124): resolve each sorted path to a
service id, recording a failure (in submission order, hence before all
fetch/creation failures) for paths whose resolution raises.  Returns the
resolved `(path, service_id)` pairs in submission order and those failures. -/
def resolvePhase (iiif_base project_segment : String) :
    List String → List (String × String) × List (String × String)
  | [] => ([], [])
  | p :: ps =>
    let rest := resolvePhase iiif_base project_segment ps
    match build_service_id iiif_base project_segment p with
    | .error e => (rest.1, (p, "service id build failed: " ++ e) :: rest.2)
    | .ok sid => ((p, sid) :: rest.1, rest.2)

/-- `results[p] = v` on a Python dict (overwrite in place, append new keys). -/
def dictSet : List (String × α) → String → α → List (String × α)
  | [], k, v => [(k, v)]
  | (k0, v0) :: rest, k, v =>
    if k0 = k then (k0, v) :: rest
    else (k0, v0) :: dictSet rest k v

/-- The collection loop (lines 127–131) folded over the futures in their
completion order `arrival`: each completed future for `(p, sid)` stores
`(fut.result(), sid)` under key `p`. -/
def collectInto (net : String → NetResult)
    (m : List (String × (Json × String))) :
    List (String × String) → List (String × (Json × String))
  | [] => m
  | (p, sid) :: rest =>
    collectInto net (dictSet m p (fetch_info_json net sid, sid)) rest

/-- Code-point lexicographic `≤` on character lists — the comparison Python
`sorted` applies to strings. -/
def charsLe : List Char → List Char → Bool
  | [], _ => true
  | _ :: _, [] => false
  | a :: as, b :: bs =>
    if a.toNat = b.toNat then charsLe as bs
    else decide (a.toNat < b.toNat)

/-- Code-point lexicographic `≤` on strings. -/
def strle (a b : String) : Bool := charsLe a.data b.data

/-- Python `sorted` on strings: lexicographic (code point) order. -/
def sortItems (items : List String) : List String :=
  List.insertionSort (fun a b => strle a b = true) items

/-- `make_manifest_for_doc` up to (but not including) `json_dumps`, with the
completion order of the concurrent fetches made explicit as `arrival` (a
permutation of the resolved items; the source collects results keyed by path
exactly so that this order cannot matter).  Returns the in-memory manifest,
`canvases_created`, and the failure list; an exception escaping the loop
(see `processItem`) is `Except.error`. -/
def assembleWith (doc : String) (items : List String)
    (iiif_image_base project_segment iiif_presentation_base : String)
    (net : String → NetResult) (bo : String → BuildOutcome)
    (arrival : List (String × String)) :
    Except String (Manifest × Nat × List (String × String)) :=
  let base := baseOf iiif_presentation_base
  let sItems := sortItems items
  let rp := resolvePhase iiif_image_base project_segment sItems
  let results := collectInto net [] arrival
  match processItems base bo results ⟨[], 0, rp.2⟩ sItems with
  | .error e => .error e
  | .ok st =>
    .ok (⟨base ++ doc ++ ".json", doc, ["paged"], st.canvases⟩,
         st.counter, st.failures)

/-- `assembleWith` at the canonical completion order (resolution order). -/
def assemble (doc : String) (items : List String)
    (iiif_image_base project_segment iiif_presentation_base : String)
    (net : String → NetResult) (bo : String → BuildOutcome) :
    Except String (Manifest × Nat × List (String × String)) :=
  assembleWith doc items iiif_image_base project_segment
    iiif_presentation_base net bo
    (resolvePhase iiif_image_base project_segment (sortItems items)).1

/-- Result of `manifest.json_dumps()`: the serialized text, or the exception
it raised. -/
inductive DumpRes where
  | ok : String → DumpRes
  | err : String → DumpRes

/-- `generate_manifests.make_manifest_for_doc`: returns
`(manifest_json, created_count, failures)`; `manifest_json = none` models the
`return None` of the serialization-failure branch. -/
def make_manifest_for_doc (doc : String) (items : List String)
    (iiif_image_base project_segment iiif_presentation_base : String)
    (net : String → NetResult) (bo : String → BuildOutcome)
    (dumps : Manifest → DumpRes) :
    Except String (Option String × Nat × List (String × String)) :=
  match assemble doc items iiif_image_base project_segment
      iiif_presentation_base net bo with
  | .error e => .error e
  | .ok (m, cnt, fails) =>
    match dumps m with
    | .ok s => .ok (some s, cnt, fails)
    | .err e =>
      .ok (none, cnt, fails ++ [("manifest_dumps", "json_dumps failed: " ++ e)])

/-! ### Main loop and report -/

/-- `os.path.join` for the cases the script exercises. -/
def joinPath (a b : String) : String :=
  if "/".data.isPrefixOf b.data then b
  else if a = "" then b
  else if "/".data.isSuffixOf a.data then a ++ b
  else a ++ "/" ++ b

/-- Accumulated run outcome: `created_manifests` (doc, output path, canvas
count), `report_lines`, and `total_failures` (doc, item, message). -/
structure RunResult where
  created : List (String × String × Nat)
  reportLines : List String
  failures : List (String × String × String)
deriving Repr

/-- The per-document loop of `main` (lines 229–248) over the sorted grouped
documents.  The `if manifest_json:` test is Python truthiness: `None` and the
empty string both take the FAILED branch. -/
def runDocs (output_dir iiif_image_base project_segment
    iiif_presentation_base : String) (net : String → NetResult)
    (bo : String → BuildOutcome) (dumps : Manifest → DumpRes) :
    List (String × List String) → Except String RunResult
  | [] => .ok ⟨[], [], []⟩
  | (doc, items) :: rest =>
    match make_manifest_for_doc doc items iiif_image_base project_segment
        iiif_presentation_base net bo dumps with
    | .error e => .error e
    | .ok (mj, cnt, fails) =>
      match runDocs output_dir iiif_image_base project_segment
          iiif_presentation_base net bo dumps rest with
      | .error e => .error e
      | .ok r =>
        let outP := joinPath output_dir (doc ++ ".json")
        let docFails := fails.map (fun pm => (doc, pm.1, pm.2))
        if (mj.getD "") ≠ "" then
          .ok ⟨(doc, outP, cnt) :: r.created,
               ("- " ++ doc ++ ": created " ++ toString cnt ++ " canvases -> "
                  ++ outP) :: r.reportLines,
               docFails ++ r.failures⟩
        else
          .ok ⟨r.created,
               ("- " ++ doc ++ ": FAILED to create manifest (no json produced)")
                  :: r.reportLines,
               docFails ++ r.failures⟩

/-- `main` from the parsed path list onwards: group, sort document keys,
process each document. -/
def mainModel (paths : List String) (output_dir iiif_image_base
    project_segment iiif_presentation_base : String)
    (net : String → NetResult) (bo : String → BuildOutcome)
    (dumps : Manifest → DumpRes) : Except String RunResult :=
  runDocs output_dir iiif_image_base project_segment iiif_presentation_base
    net bo dumps
    (List.insertionSort (fun a b => strle a.1 b.1 = true) (groupPaths paths))

/-! ### Characterization of the post-collection pass

The following functions re-describe, by structural recursion over the sorted
path list, exactly what `processItems` accumulates; `processItems_eq` proves
the correspondence.  They are parameterized by the lookup function
`lk : String → Option (Json × String)` of the results dictionary, which makes
explicit that the pass depends on the dictionary only through lookups. -/

/-- A path produces a fully constructed canvas: it was resolved, its fetch
yielded a dict without truthy `error`, and no builder call raised. -/
def succPred (lk : String → Option (Json × String))
    (bo : String → BuildOutcome) (p : String) : Bool :=
  match lk p with
  | none => false
  | some (info, _) =>
    if errTruthy info then false
    else
      match info with
      | .obj _ => match bo p with | .ok => true | _ => false
      | _ => false

/-- The manifest items appended by the pass, starting from counter `cnt`. -/
def canvasesFor (base : String) (bo : String → BuildOutcome)
    (lk : String → Option (Json × String)) (cnt : Nat) :
    List String → List Canvas
  | [] => []
  | p :: ps =>
    match lk p with
    | none => canvasesFor base bo lk cnt ps
    | some (info, sid) =>
      if errTruthy info then canvasesFor base bo lk cnt ps
      else
        match info with
        | .obj _ =>
          match bo p with
          | .ok =>
            .full (mkCanvas base p sid info
                (safe_int (jget info "width" (.num 0)) 0)
                (safe_int (jget info "height" (.num 0)) 0) (cnt + 1)) ::
              canvasesFor base bo lk (cnt + 1) ps
          | .throwBefore _ => canvasesFor base bo lk cnt ps
          | .throwAfter _ => .halfBuilt (cnt + 1) p :: canvasesFor base bo lk cnt ps
        | _ => canvasesFor base bo lk cnt ps

/-- The failures appended by the pass. -/
def failsFor (bo : String → BuildOutcome)
    (lk : String → Option (Json × String)) :
    List String → List (String × String)
  | [] => []
  | p :: ps =>
    match lk p with
    | none => failsFor bo lk ps
    | some (info, sid) =>
      if errTruthy info then (p, fetchFailMsg info sid) :: failsFor bo lk ps
      else
        match info with
        | .obj _ =>
          match bo p with
          | .ok => failsFor bo lk ps
          | .throwBefore m =>
            (p, "manifest/canvas creation error: " ++ m) :: failsFor bo lk ps
          | .throwAfter m =>
            (p, "manifest/canvas creation error: " ++ m) :: failsFor bo lk ps
        | _ => failsFor bo lk ps

/-- The first uncaught `AttributeError` of the pass, if any: raised by the
first path whose fetched body is present, not classified as a fetch failure,
and not a dict. -/
def crashOf (lk : String → Option (Json × String)) :
    List String → Option String
  | [] => none
  | p :: ps =>
    match lk p with
    | none => crashOf lk ps
    | some (info, _) =>
      if errTruthy info then crashOf lk ps
      else
        match info with
        | .obj _ => crashOf lk ps
        | _ => some (attrErrMsg info)

/-- What `processItems` computes, in closed form. -/
theorem processItems_eq (base : String) (bo : String → BuildOutcome)
    (results : List (String × (Json × String))) (st : AsmState)
    (ps : List String) :
    processItems base bo results st ps =
      match crashOf (fun q => results.lookup q) ps with
      | some e => .error e
      | none =>
        .ok ⟨st.canvases ++
               canvasesFor base bo (fun q => results.lookup q) st.counter ps,
             st.counter +
               (ps.filter (succPred (fun q => results.lookup q) bo)).length,
             st.failures ++ failsFor bo (fun q => results.lookup q) ps⟩ := by
  induction ps generalizing st with
  | nil => cases st; simp [processItems, crashOf, canvasesFor, failsFor]
  | cons p ps ih =>
    have hstep : processItems base bo results st (p :: ps) =
        match processItem base bo results st p with
        | .error e => .error e
        | .ok st' => processItems base bo results st' ps := rfl
    rw [hstep]
    cases hl : results.lookup p with
    | none =>
      have hpi : processItem base bo results st p = .ok st := by
        simp [processItem, hl]
      rw [hpi]; dsimp only; rw [ih]
      simp only [crashOf, canvasesFor, failsFor, List.filter_cons, succPred, hl]
      cases crashOf (fun q => results.lookup q) ps <;> simp
    | some v =>
      obtain ⟨info, sid⟩ := v
      by_cases he : errTruthy info = true
      · have hpi : processItem base bo results st p =
            .ok { st with failures := st.failures ++ [(p, fetchFailMsg info sid)] } := by
          simp [processItem, hl, he]
        rw [hpi]; dsimp only; rw [ih]
        simp only [crashOf, canvasesFor, failsFor, List.filter_cons, succPred, hl, he]
        cases crashOf (fun q => results.lookup q) ps <;> simp
      · cases info with
        | obj kvs =>
          cases hb : bo p with
          | ok =>
            have hpi : processItem base bo results st p =
                .ok { st with
                      counter := st.counter + 1
                      canvases := st.canvases ++
                        [.full (mkCanvas base p sid (.obj kvs)
                          (safe_int (jget (.obj kvs) "width" (.num 0)) 0)
                          (safe_int (jget (.obj kvs) "height" (.num 0)) 0)
                          (st.counter + 1))] } := by
              simp [processItem, hl, he, hb]
            rw [hpi]; dsimp only; rw [ih]
            simp only [crashOf, canvasesFor, failsFor, List.filter_cons, succPred,
              hl, he, hb]
            cases crashOf (fun q => results.lookup q) ps <;> (simp; try omega)
          | throwBefore m =>
            have hpi : processItem base bo results st p =
                .ok { st with failures := st.failures ++
                        [(p, "manifest/canvas creation error: " ++ m)] } := by
              simp [processItem, hl, he, hb]
            rw [hpi]; dsimp only; rw [ih]
            simp only [crashOf, canvasesFor, failsFor, List.filter_cons, succPred,
              hl, he, hb]
            cases crashOf (fun q => results.lookup q) ps <;> simp
          | throwAfter m =>
            have hpi : processItem base bo results st p =
                .ok { st with
                      canvases := st.canvases ++ [.halfBuilt (st.counter + 1) p]
                      failures := st.failures ++
                        [(p, "manifest/canvas creation error: " ++ m)] } := by
              simp [processItem, hl, he, hb]
            rw [hpi]; dsimp only; rw [ih]
            simp only [crashOf, canvasesFor, failsFor, List.filter_cons, succPred,
              hl, he, hb]
            cases crashOf (fun q => results.lookup q) ps <;> simp
        | null =>
          have hpi : processItem base bo results st p = .error (attrErrMsg .null) := by
            simp [processItem, hl, he]
          rw [hpi]
          simp [crashOf, hl, he]
        | bool b =>
          have hpi : processItem base bo results st p = .error (attrErrMsg (.bool b)) := by
            simp [processItem, hl, he]
          rw [hpi]
          simp [crashOf, hl, he]
        | num n =>
          have hpi : processItem base bo results st p = .error (attrErrMsg (.num n)) := by
            simp [processItem, hl, he]
          rw [hpi]
          simp [crashOf, hl, he]
        | str s =>
          have hpi : processItem base bo results st p = .error (attrErrMsg (.str s)) := by
            simp [processItem, hl, he]
          rw [hpi]
          simp [crashOf, hl, he]
        | arr xs =>
          have hpi : processItem base bo results st p = .error (attrErrMsg (.arr xs)) := by
            simp [processItem, hl, he]
          rw [hpi]
          simp [crashOf, hl, he]

/-- Index of a fully constructed canvas, `none` for a half-built one. -/
def fullIndexOf : Canvas → Option Nat
  | .full c => some c.index
  | .halfBuilt _ _ => none

/-- Originating path of a fully constructed canvas. -/
def fullPathOf : Canvas → Option String
  | .full c => some c.srcPath
  | .halfBuilt _ _ => none

/-- The indices of the fully constructed canvases form the contiguous block
starting right after the initial counter value. -/
theorem canvasesFor_fullIndexOf (base : String) (bo : String → BuildOutcome)
    (lk : String → Option (Json × String)) (cnt : Nat) (ps : List String) :
    (canvasesFor base bo lk cnt ps).filterMap fullIndexOf =
      List.range' (cnt + 1) (ps.filter (succPred lk bo)).length := by
  induction ps generalizing cnt with
  | nil => simp [canvasesFor]
  | cons p ps ih =>
    cases hl : lk p with
    | none =>
      simp only [canvasesFor, List.filter_cons, succPred, hl]
      exact ih cnt
    | some v =>
      obtain ⟨info, sid⟩ := v
      by_cases he : errTruthy info = true
      · simp only [canvasesFor, List.filter_cons, succPred, hl, he]
        simpa using ih cnt
      · cases info with
        | obj kvs =>
          cases hb : bo p with
          | ok =>
            simp only [canvasesFor, List.filter_cons, succPred, hl, he, hb,
              List.filterMap_cons, fullIndexOf]
            simp [List.range', List.filterMap_cons, fullIndexOf, mkCanvas, ih (cnt + 1)]
          | throwBefore m =>
            simp only [canvasesFor, List.filter_cons, succPred, hl, he, hb]
            simpa using ih cnt
          | throwAfter m =>
            simp only [canvasesFor, List.filter_cons, succPred, hl, he, hb,
              List.filterMap_cons, fullIndexOf]
            simpa using ih cnt
        | null => simp only [canvasesFor, List.filter_cons, succPred, hl, he]
                  simpa using ih cnt
        | bool b => simp only [canvasesFor, List.filter_cons, succPred, hl, he]
                    simpa using ih cnt
        | num n => simp only [canvasesFor, List.filter_cons, succPred, hl, he]
                   simpa using ih cnt
        | str s => simp only [canvasesFor, List.filter_cons, succPred, hl, he]
                   simpa using ih cnt
        | arr xs => simp only [canvasesFor, List.filter_cons, succPred, hl, he]
                    simpa using ih cnt

/-- The originating paths of the fully constructed canvases are exactly the
walked paths that fully succeed, in the same order. -/
theorem canvasesFor_fullPathOf (base : String) (bo : String → BuildOutcome)
    (lk : String → Option (Json × String)) (cnt : Nat) (ps : List String) :
    (canvasesFor base bo lk cnt ps).filterMap fullPathOf =
      ps.filter (succPred lk bo) := by
  induction ps generalizing cnt with
  | nil => simp [canvasesFor]
  | cons p ps ih =>
    cases hl : lk p with
    | none =>
      simp only [canvasesFor, List.filter_cons, succPred, hl]
      exact ih cnt
    | some v =>
      obtain ⟨info, sid⟩ := v
      by_cases he : errTruthy info = true
      · simp only [canvasesFor, List.filter_cons, succPred, hl, he]
        simpa using ih cnt
      · cases info with
        | obj kvs =>
          cases hb : bo p with
          | ok =>
            simp only [canvasesFor, List.filter_cons, succPred, hl, he, hb,
              List.filterMap_cons, fullPathOf, mkCanvas]
            simp [List.filterMap_cons, fullPathOf, ih (cnt + 1)]
          | throwBefore m =>
            simp only [canvasesFor, List.filter_cons, succPred, hl, he, hb]
            simpa using ih cnt
          | throwAfter m =>
            simp only [canvasesFor, List.filter_cons, succPred, hl, he, hb,
              List.filterMap_cons, fullPathOf]
            simpa using ih cnt
        | null => simp only [canvasesFor, List.filter_cons, succPred, hl, he]
                  simpa using ih cnt
        | bool b => simp only [canvasesFor, List.filter_cons, succPred, hl, he]
                    simpa using ih cnt
        | num n => simp only [canvasesFor, List.filter_cons, succPred, hl, he]
                   simpa using ih cnt
        | str s => simp only [canvasesFor, List.filter_cons, succPred, hl, he]
                   simpa using ih cnt
        | arr xs => simp only [canvasesFor, List.filter_cons, succPred, hl, he]
                    simpa using ih cnt

/-- The originating paths of all manifest items (full or half-built) form a
sublist of the walked path list. -/
theorem canvasesFor_path_sublist (base : String) (bo : String → BuildOutcome)
    (lk : String → Option (Json × String)) (cnt : Nat) (ps : List String) :
    ((canvasesFor base bo lk cnt ps).map canvasPath).Sublist ps := by
  induction ps generalizing cnt with
  | nil => simp [canvasesFor]
  | cons p ps ih =>
    cases hl : lk p with
    | none =>
      simp only [canvasesFor, hl]
      exact (ih cnt).cons p
    | some v =>
      obtain ⟨info, sid⟩ := v
      by_cases he : errTruthy info = true
      · simp only [canvasesFor, hl, he, if_true]
        exact (ih cnt).cons p
      · cases info with
        | obj kvs =>
          cases hb : bo p with
          | ok =>
            simp only [canvasesFor, hl, he, hb, List.map_cons, canvasPath, mkCanvas,
              if_false]
            exact (ih (cnt + 1)).cons₂ p
          | throwBefore m =>
            simp only [canvasesFor, hl, he, hb, if_false]
            exact (ih cnt).cons p
          | throwAfter m =>
            simp only [canvasesFor, hl, he, hb, List.map_cons, canvasPath, if_false]
            exact (ih cnt).cons₂ p
        | null => simp only [canvasesFor, hl, he, if_false]
                  exact (ih cnt).cons p
        | bool b => simp only [canvasesFor, hl, he, if_false]
                    exact (ih cnt).cons p
        | num n => simp only [canvasesFor, hl, he, if_false]
                   exact (ih cnt).cons p
        | str s => simp only [canvasesFor, hl, he, if_false]
                   exact (ih cnt).cons p
        | arr xs => simp only [canvasesFor, hl, he, if_false]
                    exact (ih cnt).cons p

/-- A half-built canvas comes from a path whose builder call raised after the
append, and that path's failure is recorded. -/
theorem canvasesFor_halfBuilt (base : String) (bo : String → BuildOutcome)
    (lk : String → Option (Json × String)) (cnt : Nat) (ps : List String)
    (i : Nat) (q : String)
    (hmem : Canvas.halfBuilt i q ∈ canvasesFor base bo lk cnt ps) :
    ∃ m, bo q = .throwAfter m ∧
      (q, "manifest/canvas creation error: " ++ m) ∈ failsFor bo lk ps := by
  induction ps generalizing cnt with
  | nil => simp [canvasesFor] at hmem
  | cons p ps ih =>
    cases hl : lk p with
    | none =>
      simp only [canvasesFor, hl] at hmem
      simp only [failsFor, hl]
      exact ih cnt hmem
    | some v =>
      obtain ⟨info, sid⟩ := v
      by_cases he : errTruthy info = true
      · simp only [canvasesFor, hl, he, if_true] at hmem
        simp only [failsFor, hl, he, if_true]
        obtain ⟨m, hm, hf⟩ := ih cnt hmem
        exact ⟨m, hm, List.mem_cons_of_mem _ hf⟩
      · cases info with
        | obj kvs =>
          cases hb : bo p with
          | ok =>
            simp only [canvasesFor, hl, he, hb, if_false] at hmem
            simp only [failsFor, hl, he, hb, if_false]
            rcases List.mem_cons.mp hmem with hc | hmem'
            · cases hc
            · exact ih (cnt + 1) hmem'
          | throwBefore m =>
            simp only [canvasesFor, hl, he, hb, if_false] at hmem
            simp only [failsFor, hl, he, hb, if_false]
            obtain ⟨m', hm, hf⟩ := ih cnt hmem
            exact ⟨m', hm, List.mem_cons_of_mem _ hf⟩
          | throwAfter m =>
            simp only [canvasesFor, hl, he, hb, if_false] at hmem
            simp only [failsFor, hl, he, hb, if_false]
            rcases List.mem_cons.mp hmem with hc | hmem'
            · obtain ⟨rfl, rfl⟩ := Canvas.halfBuilt.inj hc
              exact ⟨m, hb, List.mem_cons_self _ _⟩
            · obtain ⟨m', hm, hf⟩ := ih cnt hmem'
              exact ⟨m', hm, List.mem_cons_of_mem _ hf⟩
        | null =>
          simp only [canvasesFor, hl, he, if_false] at hmem
          simp only [failsFor, hl, he, if_false]
          exact ih cnt hmem
        | bool b =>
          simp only [canvasesFor, hl, he, if_false] at hmem
          simp only [failsFor, hl, he, if_false]
          exact ih cnt hmem
        | num n =>
          simp only [canvasesFor, hl, he, if_false] at hmem
          simp only [failsFor, hl, he, if_false]
          exact ih cnt hmem
        | str s =>
          simp only [canvasesFor, hl, he, if_false] at hmem
          simp only [failsFor, hl, he, if_false]
          exact ih cnt hmem
        | arr xs =>
          simp only [canvasesFor, hl, he, if_false] at hmem
          simp only [failsFor, hl, he, if_false]
          exact ih cnt hmem

/-- Every id a fully constructed canvas carries extends the installed
`BASE_URL`. -/
theorem canvasesFor_ids (base : String) (bo : String → BuildOutcome)
    (lk : String → Option (Json × String)) (cnt : Nat) (ps : List String)
    (c : CanvasFull) (hmem : Canvas.full c ∈ canvasesFor base bo lk cnt ps) :
    (∃ t, c.id = base ++ t) ∧ (∃ t, c.annopageId = base ++ t) ∧
      (∃ t, c.annotationId = base ++ t) := by
  induction ps generalizing cnt with
  | nil => simp [canvasesFor] at hmem
  | cons p ps ih =>
    cases hl : lk p with
    | none =>
      simp only [canvasesFor, hl] at hmem
      exact ih cnt hmem
    | some v =>
      obtain ⟨info, sid⟩ := v
      by_cases he : errTruthy info = true
      · simp only [canvasesFor, hl, he, if_true] at hmem
        exact ih cnt hmem
      · cases info with
        | obj kvs =>
          cases hb : bo p with
          | ok =>
            simp only [canvasesFor, hl, he, hb, if_false] at hmem
            rcases List.mem_cons.mp hmem with hc | hmem'
            · obtain rfl := Canvas.full.inj hc
              refine ⟨⟨"canvas/p" ++ toString (cnt + 1), ?_⟩,
                      ⟨"page/p" ++ toString (cnt + 1) ++ "/1", ?_⟩,
                      ⟨"annotation/p" ++ zfill4 (cnt + 1) ++ "-image", ?_⟩⟩ <;>
                simp [mkCanvas, String.append_assoc]
            · exact ih (cnt + 1) hmem'
          | throwBefore m =>
            simp only [canvasesFor, hl, he, hb, if_false] at hmem
            exact ih cnt hmem
          | throwAfter m =>
            simp only [canvasesFor, hl, he, hb, if_false] at hmem
            rcases List.mem_cons.mp hmem with hc | hmem'
            · cases hc
            · exact ih cnt hmem'
        | null =>
          simp only [canvasesFor, hl, he, if_false] at hmem
          exact ih cnt hmem
        | bool b =>
          simp only [canvasesFor, hl, he, if_false] at hmem
          exact ih cnt hmem
        | num n =>
          simp only [canvasesFor, hl, he, if_false] at hmem
          exact ih cnt hmem
        | str s =>
          simp only [canvasesFor, hl, he, if_false] at hmem
          exact ih cnt hmem
        | arr xs =>
          simp only [canvasesFor, hl, he, if_false] at hmem
          exact ih cnt hmem

/-- Lookup into a dict after `dict[k] = v`. -/
theorem lookup_dictSet {α : Type} (m : List (String × α)) (k : String) (v : α)
    (q : String) :
    (dictSet m k v).lookup q = if q = k then some v else m.lookup q := by
  induction m with
  | nil =>
    by_cases h : q = k
    · subst h
      simp [dictSet, List.lookup]
    · simp [dictSet, List.lookup, h, beq_false_of_ne h]
  | cons kv rest ih =>
    obtain ⟨k0, v0⟩ := kv
    by_cases h0 : k0 = k
    · subst h0
      by_cases h : q = k0
      · subst h
        simp [dictSet, List.lookup]
      · simp [dictSet, List.lookup, h, beq_false_of_ne h]
    · by_cases h : q = k0
      · subst h
        simp [dictSet, h0, List.lookup, Ne.symm h0]
      · simp [dictSet, h0, List.lookup, h, beq_false_of_ne h, ih]

/-- The value the collection loop can store for a path: the single fetch of
its (deterministically) resolved service id.  (Unreachable junk for a path
that did not resolve.) -/
def fetchValOf (iiif_base project_segment : String) (net : String → NetResult)
    (q : String) : Json × String :=
  match build_service_id iiif_base project_segment q with
  | .ok sid => (fetch_info_json net sid, sid)
  | .error _ => (.null, "")

/-- Lookup into the results dictionary built over any completion order whose
entries carry the deterministic resolution of their path: the dictionary is a
function of the path set alone. -/
theorem collectInto_lookup (iiif_base project_segment : String)
    (net : String → NetResult) (arr : List (String × String))
    (m : List (String × (Json × String))) (q : String)
    (hv : ∀ pr ∈ arr, build_service_id iiif_base project_segment pr.1 = .ok pr.2) :
    (collectInto net m arr).lookup q =
      if q ∈ arr.map Prod.fst then
        some (fetchValOf iiif_base project_segment net q)
      else m.lookup q := by
  induction arr generalizing m with
  | nil => simp [collectInto]
  | cons pr rest ih =>
    obtain ⟨p, sid⟩ := pr
    have hp : build_service_id iiif_base project_segment p = .ok sid :=
      hv (p, sid) (List.mem_cons_self (p, sid) rest)
    have hrest : ∀ pr ∈ rest,
        build_service_id iiif_base project_segment pr.1 = .ok pr.2 :=
      fun pr h => hv pr (List.mem_cons_of_mem (p, sid) h)
    simp only [collectInto]
    rw [ih _ hrest]
    by_cases hq : q ∈ rest.map Prod.fst
    · simp [hq]
    · by_cases hqp : q = p
      · subst hqp
        have hfv : fetchValOf iiif_base project_segment net q =
            (fetch_info_json net sid, sid) := by
          unfold fetchValOf
          rw [hp]
        simp [hq, lookup_dictSet, hfv]
      · simp [hq, hqp, lookup_dictSet]

/-- Every pair the submission loop resolves carries the deterministic
resolution of its path. -/
theorem resolvePhase_mem (iiif_base project_segment : String)
    (ps : List String) (pr : String × String)
    (h : pr ∈ (resolvePhase iiif_base project_segment ps).1) :
    build_service_id iiif_base project_segment pr.1 = .ok pr.2 := by
  induction ps with
  | nil =>
    have h0 : resolvePhase iiif_base project_segment [] = ([], []) := rfl
    rw [h0] at h
    simp at h
  | cons p ps ih =>
    simp only [resolvePhase] at h
    cases hb : build_service_id iiif_base project_segment p with
    | error e =>
      rw [hb] at h
      dsimp only at h
      exact ih h
    | ok sid =>
      rw [hb] at h
      dsimp only at h
      rcases List.mem_cons.mp h with hh | h'
      · obtain rfl := hh
        simpa using hb
      · exact ih h'

/-- What `assembleWith` computes, in closed form. -/
theorem assembleWith_eq (doc : String) (items : List String)
    (iiif_image_base project_segment pbase : String) (net : String → NetResult)
    (bo : String → BuildOutcome) (arrival : List (String × String)) :
    assembleWith doc items iiif_image_base project_segment pbase net bo arrival =
      match crashOf (fun q => (collectInto net [] arrival).lookup q)
          (sortItems items) with
      | some e => .error e
      | none =>
        .ok (⟨baseOf pbase ++ doc ++ ".json", doc, ["paged"],
              canvasesFor (baseOf pbase) bo
                (fun q => (collectInto net [] arrival).lookup q) 0
                (sortItems items)⟩,
             ((sortItems items).filter
               (succPred (fun q => (collectInto net [] arrival).lookup q) bo)).length,
             (resolvePhase iiif_image_base project_segment (sortItems items)).2 ++
               failsFor bo (fun q => (collectInto net [] arrival).lookup q)
                 (sortItems items)) := by
  simp only [assembleWith]
  rw [processItems_eq]
  cases crashOf (fun q => (collectInto net [] arrival).lookup q)
      (sortItems items) <;> simp

/-- The comparison is total. -/
theorem charsLe_total : ∀ a b : List Char, charsLe a b = true ∨ charsLe b a = true
  | [], _ => Or.inl rfl
  | _ :: _, [] => Or.inr rfl
  | a :: as, b :: bs => by
    by_cases h : a.toNat = b.toNat
    · rcases charsLe_total as bs with h1 | h1
      · left
        simp [charsLe, h, h1]
      · right
        simp [charsLe, h.symm, h1]
    · rcases Nat.lt_or_ge a.toNat b.toNat with hlt | hge
      · left
        simp [charsLe, h, hlt]
      · have hne : ¬b.toNat = a.toNat := fun hh => h hh.symm
        have hgt : b.toNat < a.toNat := Nat.lt_of_le_of_ne hge hne
        right
        simp [charsLe, hne, hgt]

/-- The comparison is transitive. -/
theorem charsLe_trans : ∀ a b c : List Char,
    charsLe a b = true → charsLe b c = true → charsLe a c = true
  | [], _, _, _, _ => rfl
  | _ :: _, [], _, h1, _ => by simp [charsLe] at h1
  | _ :: _, _ :: _, [], _, h2 => by simp [charsLe] at h2
  | a :: as, b :: bs, c :: cs, h1, h2 => by
    simp only [charsLe] at h1 h2 ⊢
    by_cases hab : a.toNat = b.toNat <;> by_cases hbc : b.toNat = c.toNat
    · rw [if_pos hab] at h1
      rw [if_pos hbc] at h2
      rw [if_pos (hab.trans hbc)]
      exact charsLe_trans as bs cs h1 h2
    · rw [if_pos hab] at h1
      rw [if_neg hbc] at h2
      have h2' : b.toNat < c.toNat := of_decide_eq_true h2
      have : a.toNat < c.toNat := hab ▸ h2'
      rw [if_neg (by omega)]
      exact decide_eq_true this
    · rw [if_neg hab] at h1
      rw [if_pos hbc] at h2
      have h1' : a.toNat < b.toNat := of_decide_eq_true h1
      have : a.toNat < c.toNat := hbc ▸ h1'
      rw [if_neg (by omega)]
      exact decide_eq_true this
    · rw [if_neg hab] at h1
      rw [if_neg hbc] at h2
      have h1' : a.toNat < b.toNat := of_decide_eq_true h1
      have h2' : b.toNat < c.toNat := of_decide_eq_true h2
      have : a.toNat < c.toNat := Nat.lt_trans h1' h2'
      rw [if_neg (by omega)]
      exact decide_eq_true this

/-- The comparison is antisymmetric. -/
theorem charsLe_antisymm : ∀ a b : List Char,
    charsLe a b = true → charsLe b a = true → a = b
  | [], [], _, _ => rfl
  | [], _ :: _, _, h2 => by simp [charsLe] at h2
  | _ :: _, [], h1, _ => by simp [charsLe] at h1
  | a :: as, b :: bs, h1, h2 => by
    simp only [charsLe] at h1 h2
    by_cases hab : a.toNat = b.toNat
    · have hc : a = b := Char.ext (UInt32.ext hab)
      have hrec := charsLe_antisymm as bs
        (by rw [if_pos hab] at h1; exact h1)
        (by rw [if_pos hab.symm] at h2; exact h2)
      rw [hc, hrec]
    · exfalso
      rw [if_neg hab] at h1
      rw [if_neg (fun hh => hab hh.symm)] at h2
      have h1' := of_decide_eq_true h1
      have h2' := of_decide_eq_true h2
      omega

instance : IsTotal String (fun a b => strle a b = true) :=
  ⟨fun a b => charsLe_total a.data b.data⟩

instance : IsTrans String (fun a b => strle a b = true) :=
  ⟨fun a b c => charsLe_trans a.data b.data c.data⟩

instance : IsAntisymm String (fun a b => strle a b = true) :=
  ⟨fun a b h1 h2 => by
    have hd := charsLe_antisymm a.data b.data h1 h2
    cases a
    cases b
    exact congrArg String.mk hd⟩

/-- `sorted` output is sorted (lexicographic ≤ on strings). -/
theorem sortItems_sorted (items : List String) :
    (sortItems items).Pairwise (fun a b => strle a b = true) :=
  List.sorted_insertionSort _ items

/-- `sorted` output is a permutation of its input. -/
theorem sortItems_perm (items : List String) : (sortItems items).Perm items :=
  List.perm_insertionSort _ items

/-- `sorted` depends only on the multiset of items. -/
theorem sortItems_congr {items₁ items₂ : List String}
    (h : items₁.Perm items₂) : sortItems items₁ = sortItems items₂ :=
  List.eq_of_perm_of_sorted
    ((sortItems_perm items₁).trans (h.trans (sortItems_perm items₂).symm))
    (List.sorted_insertionSort _ items₁) (List.sorted_insertionSort _ items₂)

/-- Lookup into the grouping dict after one append. -/
theorem lookup_dictAppend (g : List (String × List String)) (k v q : String) :
    ((dictAppend g k v).lookup q).getD [] =
      (g.lookup q).getD [] ++ (if q = k then [v] else []) := by
  induction g with
  | nil =>
    by_cases h : q = k
    · subst h
      simp [dictAppend, List.lookup]
    · simp [dictAppend, List.lookup, h, beq_false_of_ne h]
  | cons kv rest ih =>
    obtain ⟨k0, vs⟩ := kv
    by_cases h0 : k0 = k
    · subst h0
      by_cases h : q = k0
      · subst h
        simp [dictAppend, List.lookup]
      · simp [dictAppend, List.lookup, h, beq_false_of_ne h]
    · by_cases h : q = k0
      · subst h
        simp [dictAppend, h0, List.lookup, Ne.symm h0]
      · simp [dictAppend, h0, List.lookup, h, beq_false_of_ne h, ih]

/-- The member list of a document accumulates, in input order, exactly the
paths whose key is that document. -/
theorem groupInto_lookup (g : List (String × List String)) (ps : List String)
    (k : String) :
    ((groupInto g ps).lookup k).getD [] =
      (g.lookup k).getD [] ++ ps.filter (fun p => docKeyOf p = k) := by
  induction ps generalizing g with
  | nil => simp [groupInto]
  | cons p ps ih =>
    simp only [groupInto]
    rw [ih, lookup_dictAppend]
    by_cases h : docKeyOf p = k
    · simp [List.filter_cons, h]
    · have h2 : ¬k = docKeyOf p := fun hh => h hh.symm
      simp [List.filter_cons, h, h2]

/-- The member list of document `k`: the input paths with key `k`, in input
order. -/
theorem groupPaths_lookup (paths : List String) (k : String) :
    ((groupPaths paths).lookup k).getD [] =
      paths.filter (fun p => docKeyOf p = k) := by
  simpa [groupPaths] using groupInto_lookup [] paths k

/-! ### String helper lemmas for the claims -/

/-- Hex digits are not whitespace. -/
theorem isHexD_not_space (c : Char) (h : isHexD c = true) : pyIsSpace c = false := by
  simp only [isHexD, Bool.or_eq_true, Bool.and_eq_true, decide_eq_true_eq] at h
  simp only [pyIsSpace, Bool.or_eq_false_iff, decide_eq_false_iff_not]
  omega

/-- Whitespace characters are not hex digits. -/
theorem pyIsSpace_not_hex (c : Char) (h : pyIsSpace c = true) : isHexD c = false := by
  simp only [pyIsSpace, Bool.or_eq_true, decide_eq_true_eq] at h
  simp only [isHexD, Bool.or_eq_false_iff, Bool.and_eq_false_iff,
    decide_eq_false_iff_not]
  omega

/-- `dropWhile` is the identity when the head fails the predicate. -/
theorem dropWhile_head_false (p : Char → Bool) (l : List Char)
    (h : ∀ c, l.head? = some c → p c = false) : l.dropWhile p = l := by
  cases l with
  | nil => rfl
  | cons c t => simp [List.dropWhile_cons, h c rfl]

/-- `takeWhile` over a satisfied block followed by a failing element. -/
theorem takeWhile_append_first (p : Char → Bool) (xs : List Char) (y : Char)
    (ys : List Char) (h1 : ∀ c ∈ xs, p c = true) (h2 : p y = false) :
    ((xs ++ y :: ys).takeWhile p) = xs := by
  induction xs with
  | nil => simp [List.takeWhile_cons, h2]
  | cons x xt ih =>
    have hx : p x = true := h1 x (List.mem_cons_self _ _)
    simp only [List.cons_append, List.takeWhile_cons, hx]
    simp [ih (fun c hc => h1 c (List.mem_cons_of_mem _ hc))]

/-- `dropWhile` over a satisfied block followed by a failing element. -/
theorem dropWhile_append_first (p : Char → Bool) (xs : List Char) (y : Char)
    (ys : List Char) (h1 : ∀ c ∈ xs, p c = true) (h2 : p y = false) :
    ((xs ++ y :: ys).dropWhile p) = y :: ys := by
  induction xs with
  | nil => simp [List.dropWhile_cons, h2]
  | cons x xt ih =>
    have hx : p x = true := h1 x (List.mem_cons_self _ _)
    simp only [List.cons_append, List.dropWhile_cons, hx]
    exact ih (fun c hc => h1 c (List.mem_cons_of_mem _ hc))

/-- `rstrip('/')` is the identity when the last character is not a slash. -/
theorem rstripSlashesL_eq_self (l : List Char)
    (h : ∀ c, l.getLast? = some c → c ≠ '/') : rstripSlashesL l = l := by
  unfold rstripSlashesL
  rw [dropWhile_head_false]
  · exact List.reverse_reverse l
  · intro c hc
    rw [List.head?_reverse] at hc
    simpa using h c hc

/-- `strip()` is the identity when neither end is whitespace. -/
theorem pyStrip_eq_self (l : List Char)
    (h1 : ∀ c, l.head? = some c → pyIsSpace c = false)
    (h2 : ∀ c, l.getLast? = some c → pyIsSpace c = false) :
    pyStrip ⟨l⟩ = ⟨l⟩ := by
  unfold pyStrip
  rw [show (String.mk l).data = l from rfl]
  rw [dropWhile_head_false pyIsSpace l h1]
  rw [dropWhile_head_false]
  · rw [List.reverse_reverse]
  · intro c hc
    rw [List.head?_reverse] at hc
    exact h2 c hc

/-- `str.replace(pat, '')` removes exactly the trailing occurrence when the
pattern occurs nowhere else. -/
theorem replaceAllFuel_strip (pat : List Char) (hpat : pat ≠ []) :
    ∀ (u : List Char) (fuel : Nat), (u ++ pat).length ≤ fuel →
      (∀ i < u.length, (pat.isPrefixOf ((u ++ pat).drop i)) = false) →
      replaceAllFuel pat [] fuel (u ++ pat) = u := by
  intro u
  induction u with
  | nil =>
    intro fuel hfuel _
    obtain ⟨c, cs, rfl⟩ : ∃ c cs, pat = c :: cs := by
      cases pat with
      | nil => exact absurd rfl hpat
      | cons c cs => exact ⟨c, cs, rfl⟩
    simp only [List.nil_append] at hfuel ⊢
    obtain ⟨f, rfl⟩ : ∃ f, fuel = f + 1 := by
      cases fuel with
      | zero => simp at hfuel
      | succ f => exact ⟨f, rfl⟩
    simp only [replaceAllFuel]
    rw [if_pos ⟨hpat, List.isPrefixOf_iff_prefix.mpr (List.prefix_refl _)⟩]
    have hd : cs.drop ((c :: cs).length - 1) = [] := by
      simp [List.drop_length]
    rw [hd]
    cases f <;> rfl
  | cons a u' ih =>
    intro fuel hfuel hocc
    obtain ⟨f, rfl⟩ : ∃ f, fuel = f + 1 := by
      cases fuel with
      | zero => simp at hfuel
      | succ f => exact ⟨f, rfl⟩
    simp only [List.cons_append, replaceAllFuel]
    have h0 : pat.isPrefixOf (a :: (u' ++ pat)) = false := by
      have := hocc 0 (by simp)
      simpa using this
    rw [if_neg (by simp [h0])]
    congr 1
    apply ih f
    · simp only [List.cons_append, List.length_cons] at hfuel
      simpa [List.length_append] using Nat.le_of_succ_le_succ hfuel
    · intro i hi
      have := hocc (i + 1) (by simpa using Nat.succ_lt_succ hi)
      simpa using this

/-- The lazy payload takes exactly the block up to the trailing whitespace. -/
theorem lazyGroup2_exact (path : List Char) (hne : path ≠ [])
    (hlast : ∀ c, path.getLast? = some c → pyIsSpace c = false) :
    ∀ (sp2 acc : List Char), (∀ c ∈ sp2, pyIsSpace c = true) →
      lazyGroup2 acc (path ++ sp2) = some (acc ++ path) := by
  induction path with
  | nil => exact absurd rfl hne
  | cons c path' ih =>
    intro sp2 acc hsp2
    cases path' with
    | nil =>
      have hall : sp2.all pyIsSpace = true := List.all_eq_true.mpr hsp2
      simp [lazyGroup2, hall]
    | cons d rest =>
      have hlast' : ∀ x, (d :: rest).getLast? = some x → pyIsSpace x = false := by
        intro x hx
        exact hlast x (by simpa [List.getLast?_cons_cons] using hx)
      obtain ⟨lc, hlc⟩ : ∃ lc, (d :: rest).getLast? = some lc := by
        cases h : (d :: rest).getLast? with
        | none => simp [List.getLast?_eq_none_iff] at h
        | some lc => exact ⟨lc, rfl⟩
      have hlcmem : lc ∈ d :: (rest ++ sp2) := by
        have h0 : lc ∈ (d :: rest) ++ sp2 :=
          List.mem_append_left _ (List.mem_of_mem_getLast? hlc)
        simpa using h0
      have hfalse : (d :: (rest ++ sp2)).all pyIsSpace = false := by
        rw [Bool.eq_false_iff]
        intro hall
        have := List.all_eq_true.mp hall lc hlcmem
        rw [hlast' lc hlc] at this
        exact Bool.false_ne_true this
      have hfalse' : ((d :: rest) ++ sp2).all pyIsSpace = false := by
        simpa using hfalse
      have hstep : lazyGroup2 acc ((c :: d :: rest) ++ sp2) =
          if ((d :: rest) ++ sp2).all pyIsSpace then some (acc ++ [c])
          else lazyGroup2 (acc ++ [c]) ((d :: rest) ++ sp2) := rfl
      rw [hstep, if_neg (by simp only [hfalse']; exact Bool.false_ne_true)]
      have hih := ih (by simp) hlast' sp2 (acc ++ [c]) hsp2
      rw [hih]
      simp

/-- The regex model on a well-formed checksum line: yields the path portion. -/
theorem reMatchGroup2_checksum (sp hex ws path sp2 : List Char)
    (hsp : ∀ c ∈ sp, pyIsSpace c = true)
    (hhexne : hex ≠ []) (hhex : ∀ c ∈ hex, isHexD c = true)
    (hwsne : ws ≠ []) (hws : ∀ c ∈ ws, pyIsSpace c = true)
    (hpathne : path ≠ [])
    (hph : ∀ c, path.head? = some c → pyIsSpace c = false)
    (hpl : ∀ c, path.getLast? = some c → pyIsSpace c = false)
    (hsp2 : ∀ c ∈ sp2, pyIsSpace c = true) :
    reMatchGroup2 (sp ++ hex ++ ws ++ path ++ sp2) = some path := by
  obtain ⟨hc, ht, rfl⟩ : ∃ hc ht, hex = hc :: ht := by
    cases hex with
    | nil => exact absurd rfl hhexne
    | cons hc ht => exact ⟨hc, ht, rfl⟩
  obtain ⟨wc, wt, rfl⟩ : ∃ wc wt, ws = wc :: wt := by
    cases ws with
    | nil => exact absurd rfl hwsne
    | cons wc wt => exact ⟨wc, wt, rfl⟩
  obtain ⟨pc, pt, rfl⟩ : ∃ pc pt, path = pc :: pt := by
    cases path with
    | nil => exact absurd rfl hpathne
    | cons pc pt => exact ⟨pc, pt, rfl⟩
  have hdrop : ((sp ++ ((hc :: ht) ++ ((wc :: wt) ++ ((pc :: pt) ++ sp2)))).dropWhile
      pyIsSpace) = (hc :: ht) ++ ((wc :: wt) ++ ((pc :: pt) ++ sp2)) := by
    have h0 := dropWhile_append_first pyIsSpace sp hc
      (ht ++ ((wc :: wt) ++ ((pc :: pt) ++ sp2))) hsp
      (isHexD_not_space hc (hhex hc (List.mem_cons_self _ _)))
    simpa using h0
  have htake : (((hc :: ht) ++ ((wc :: wt) ++ ((pc :: pt) ++ sp2))).takeWhile
      isHexD) = hc :: ht := by
    have h0 := takeWhile_append_first isHexD (hc :: ht) wc
      (wt ++ ((pc :: pt) ++ sp2)) hhex
      (pyIsSpace_not_hex wc (hws wc (List.mem_cons_self _ _)))
    simpa using h0
  have htakeWs : (((wc :: wt) ++ ((pc :: pt) ++ sp2)).takeWhile pyIsSpace)
      = wc :: wt := by
    have h0 := takeWhile_append_first pyIsSpace (wc :: wt) pc (pt ++ sp2) hws
      (hph pc rfl)
    simpa using h0
  have hlazy : lazyGroup2 [] ((pc :: pt) ++ sp2) = some (pc :: pt) := by
    have h0 := lazyGroup2_exact (pc :: pt) hpathne hpl sp2 [] hsp2
    simpa using h0
  have hassoc : sp ++ (hc :: ht) ++ (wc :: wt) ++ (pc :: pt) ++ sp2 =
      sp ++ ((hc :: ht) ++ ((wc :: wt) ++ ((pc :: pt) ++ sp2))) := by
    simp [List.append_assoc]
  unfold reMatchGroup2
  rw [hassoc, hdrop, htake]
  have hlen : (hc :: ht : List Char).length = ht.length + 1 := rfl
  rw [hlen]
  simp only [hLoop]
  rw [show ht.length + 1 = (hc :: ht : List Char).length from rfl,
    List.drop_left, htakeWs]
  have hlen2 : (wc :: wt : List Char).length = wt.length + 1 := rfl
  rw [hlen2]
  simp only [wsLoop]
  rw [show wt.length + 1 = (wc :: wt : List Char).length from rfl,
    List.drop_left, hlazy]

/-! ### Claims C5, C6, C7 -/

/-- Claim C5 (as stated) is false on the code: `build_service_id` applies
`rstrip('/')` (removing every trailing slash) and then
`replace('/info.json', '')`, which removes **every** occurrence of
`/info.json`, not a single trailing one.  On a URL whose path repeats the
suffix, both copies disappear, whereas stripping "exactly once" would leave
one. -/
theorem claim_C5_counterexample :
    build_service_id "" "" "https://example.org/info.json/info.json" =
      .ok "https://example.org" ∧
    "https://example.org" ≠ "https://example.org/info.json" := by
  constructor
  · rfl
  · decide

/-- Claim C5 (corrected): for every input path that (after `strip()`) begins
with `http://` or `https://`, (1) the result ignores the base URL and project
segment entirely, and equals the path with all trailing slashes stripped and
every occurrence of `/info.json` removed; and (2) when `/info.json` occurs
only as the single trailing suffix of the URL, this coincides with stripping
it exactly once. -/
theorem claim_C5_amended :
    (∀ b₁ s₁ b₂ s₂ p : String,
      ("http://".data.isPrefixOf (pyStrip p).data = true ∨
       "https://".data.isPrefixOf (pyStrip p).data = true) →
      build_service_id b₁ s₁ p = build_service_id b₂ s₂ p ∧
      build_service_id b₁ s₁ p =
        .ok ⟨replaceAllL "/info.json".data [] (rstripSlashesL (pyStrip p).data)⟩)
    ∧
    (∀ (b s : String) (u : List Char),
      ("http://".data.isPrefixOf u = true ∨ "https://".data.isPrefixOf u = true) →
      (∀ c, u.head? = some c → pyIsSpace c = false) →
      (∀ i < u.length,
        "/info.json".data.isPrefixOf ((u ++ "/info.json".data).drop i) = false) →
      build_service_id b s ⟨u ++ "/info.json".data⟩ = .ok ⟨u⟩) := by
  constructor
  · intro b₁ s₁ b₂ s₂ p h
    have hcond : ("http://".data.isPrefixOf (pyStrip p).data ||
        "https://".data.isPrefixOf (pyStrip p).data) = true := by
      rcases h with h | h <;> simp [h]
    constructor
    · simp only [build_service_id]
      rw [hcond]
      simp
    · simp only [build_service_id]
      rw [hcond]
      simp
  · intro b s u hu hh hocc
    have hne : u ≠ [] := by
      intro hnil
      subst hnil
      rcases hu with h | h <;> simp [List.isPrefixOf] at h
    have hlastpat : ("/info.json".data : List Char).getLast? = some 'n' := by decide
    have hlast : ∀ c, (u ++ "/info.json".data).getLast? = some c →
        pyIsSpace c = false := by
      intro c hc
      rw [List.getLast?_append_of_ne_nil u (by decide), hlastpat] at hc
      obtain rfl := Option.some.inj hc
      decide
    have hhead : ∀ c, (u ++ "/info.json".data).head? = some c →
        pyIsSpace c = false := by
      intro c hc
      apply hh c
      cases u with
      | nil => exact absurd rfl hne
      | cons a t => simpa using hc
    have hstrip : pyStrip ⟨u ++ "/info.json".data⟩ = ⟨u ++ "/info.json".data⟩ :=
      pyStrip_eq_self _ hhead hlast
    have hpre : ("http://".data.isPrefixOf (u ++ "/info.json".data) ||
        "https://".data.isPrefixOf (u ++ "/info.json".data)) = true := by
      rcases hu with h | h
      · have hx : ("http://".data : List Char) <+: (u ++ "/info.json".data) :=
          (List.isPrefixOf_iff_prefix.mp h).trans
            (List.prefix_append u "/info.json".data)
        simp [List.isPrefixOf_iff_prefix.mpr hx]
      · have hx : ("https://".data : List Char) <+: (u ++ "/info.json".data) :=
          (List.isPrefixOf_iff_prefix.mp h).trans
            (List.prefix_append u "/info.json".data)
        simp [List.isPrefixOf_iff_prefix.mpr hx]
    have hr : rstripSlashesL (u ++ "/info.json".data) = u ++ "/info.json".data := by
      apply rstripSlashesL_eq_self
      intro c hc
      rw [List.getLast?_append_of_ne_nil u (by decide), hlastpat] at hc
      obtain rfl := Option.some.inj hc
      decide
    have hrep : replaceAllL "/info.json".data [] (u ++ "/info.json".data) = u :=
      replaceAllFuel_strip "/info.json".data (by decide) u
        (u ++ "/info.json".data).length le_rfl hocc
    simp only [build_service_id, hstrip]
    simp [hpre, hr, hrep]

/-- Claim C6 (confirmed): the document key of a path is the second-to-last
`/`-segment when there are at least two segments, and the sentinel `"root"`
for a single segment; two paths with equal keys always land in the same
document's member list, and membership in a document is invariant under
reordering the input. -/
theorem claim_C6 :
    (∀ p : String,
      ((pySplitSlash (pyStrip p)).length = 1 → docKeyOf p = "root") ∧
      (2 ≤ (pySplitSlash (pyStrip p)).length →
        docKeyOf p = (pySplitSlash (pyStrip p)).getD
          ((pySplitSlash (pyStrip p)).length - 2) ""))
    ∧
    (∀ (paths : List String) (p₁ p₂ : String), p₁ ∈ paths → p₂ ∈ paths →
      docKeyOf p₁ = docKeyOf p₂ →
      p₁ ∈ ((groupPaths paths).lookup (docKeyOf p₁)).getD [] ∧
      p₂ ∈ ((groupPaths paths).lookup (docKeyOf p₁)).getD [])
    ∧
    (∀ (paths₁ paths₂ : List String) (p k : String), paths₁.Perm paths₂ →
      (p ∈ ((groupPaths paths₁).lookup k).getD [] ↔
       p ∈ ((groupPaths paths₂).lookup k).getD [])) := by
  refine ⟨?_, ?_, ?_⟩
  · intro p
    constructor
    · intro h1
      simp [docKeyOf, doc_and_filename_from_path, h1]
    · intro h2
      have hne : ¬(pySplitSlash (pyStrip p)).length = 1 := by omega
      simp [docKeyOf, doc_and_filename_from_path, hne, h2]
  · intro paths p₁ p₂ h₁ h₂ hk
    rw [groupPaths_lookup]
    constructor
    · simp only [List.mem_filter]
      exact ⟨h₁, by simp⟩
    · simp only [List.mem_filter]
      exact ⟨h₂, by simp [hk.symm]⟩
  · intro paths₁ paths₂ p k hperm
    rw [groupPaths_lookup, groupPaths_lookup]
    exact (hperm.filter _).mem_iff

/-- Claim C7 (confirmed): the parser skips blank (whitespace-only) lines,
yields the regex group 2 (the path portion) for a line of the form
`<hex-checksum><whitespace><path>` (with optional surrounding whitespace),
uses every other non-blank line verbatim after trimming, is total (hence
never raises), and emits outputs in input line order — it is the
`filterMap` of a per-line function. -/
theorem claim_C7 :
    (∀ lns : List String, parse_all_manifests lns = lns.filterMap lineOut)
    ∧
    (∀ (ln : String) (lns : List String), pyStrip ln = "" →
      parse_all_manifests (ln :: lns) = parse_all_manifests lns)
    ∧
    (∀ (ln : String) (lns : List String), pyStrip ln ≠ "" →
      reMatchGroup2 ln.data = none →
      parse_all_manifests (ln :: lns) = pyStrip ln :: parse_all_manifests lns)
    ∧
    (∀ sp hex ws path sp2 : List Char,
      (∀ c ∈ sp, pyIsSpace c = true) →
      hex ≠ [] → (∀ c ∈ hex, isHexD c = true) →
      ws ≠ [] → (∀ c ∈ ws, pyIsSpace c = true) →
      path ≠ [] →
      (∀ c, path.head? = some c → pyIsSpace c = false) →
      (∀ c, path.getLast? = some c → pyIsSpace c = false) →
      (∀ c ∈ sp2, pyIsSpace c = true) →
      reMatchGroup2 (sp ++ hex ++ ws ++ path ++ sp2) = some path) := by
  refine ⟨?_, ?_, ?_, ?_⟩
  · intro lns
    induction lns with
    | nil => rfl
    | cons ln lns ih =>
      by_cases hb : pyStrip ln = ""
      · simp [parse_all_manifests, lineOut, hb, List.filterMap_cons, ih]
      · cases hm : reMatchGroup2 ln.data with
        | none => simp [parse_all_manifests, lineOut, hb, hm, List.filterMap_cons, ih]
        | some g => simp [parse_all_manifests, lineOut, hb, hm, List.filterMap_cons, ih]
  · intro ln lns hb
    simp [parse_all_manifests, hb]
  · intro ln lns hb hm
    simp [parse_all_manifests, hb, hm]
  · exact reMatchGroup2_checksum

/-- Witness for `claim_C5_amended` at a concrete URL path. -/
theorem claim_C5_amended_witness :
    build_service_id "A" "B" "https://x/a.jpg" = build_service_id "C" "D" "https://x/a.jpg" ∧
    build_service_id "" "" ⟨"https://x/a.jpg".data ++ "/info.json".data⟩ =
      .ok ⟨"https://x/a.jpg".data⟩ := by
  constructor
  · exact (claim_C5_amended.1 "A" "B" "C" "D" "https://x/a.jpg"
      (Or.inr (by decide))).1
  · refine claim_C5_amended.2 "" "" "https://x/a.jpg".data (Or.inr (by decide))
      ?_ (by decide)
    intro c hc
    have h0 : ("https://x/a.jpg".data : List Char).head? = some 'h' := by decide
    rw [h0] at hc
    obtain rfl := Option.some.inj hc
    decide

/-- Witness for `claim_C6` at concrete paths. -/
theorem claim_C6_witness :
    docKeyOf "A/1.jpg" = "A" ∧
    "A/1.jpg" ∈ ((groupPaths ["A/1.jpg", "B/2.jpg", "A/3.jpg"]).lookup
      (docKeyOf "A/1.jpg")).getD [] ∧
    "A/3.jpg" ∈ ((groupPaths ["A/1.jpg", "B/2.jpg", "A/3.jpg"]).lookup
      (docKeyOf "A/1.jpg")).getD [] := by
  refine ⟨?_, ?_⟩
  · exact ((claim_C6.1 "A/1.jpg").2 (by decide)).trans (by decide)
  · exact claim_C6.2.1 ["A/1.jpg", "B/2.jpg", "A/3.jpg"] "A/1.jpg" "A/3.jpg"
      (by decide) (by decide) (by decide)

/-- Witness for `claim_C7` at a concrete checksum line and a concrete parse. -/
theorem claim_C7_witness :
    reMatchGroup2 ("  ".data ++ "ab12".data ++ " ".data ++ "foo.jpg".data ++
      " ".data) = some "foo.jpg".data ∧
    parse_all_manifests ["x/y.jpg"] = ["x/y.jpg"].filterMap lineOut := by
  constructor
  · refine claim_C7.2.2.2 "  ".data "ab12".data " ".data "foo.jpg".data " ".data
      (by decide) (by decide) (by decide) (by decide) (by decide) (by decide)
      ?_ ?_ (by decide)
    · intro c hc
      have h0 : ("foo.jpg".data : List Char).head? = some 'f' := by decide
      rw [h0] at hc
      obtain rfl := Option.some.inj hc
      decide
    · intro c hc
      have h0 : ("foo.jpg".data : List Char).getLast? = some 'g' := by decide
      rw [h0] at hc
      obtain rfl := Option.some.inj hc
      decide
  · exact claim_C7.1 ["x/y.jpg"]

/-! ### Claims C1–C4 -/

/-- The canonical lookup function of the results dictionary: what any
completion order that is a permutation of the resolved items produces. -/
theorem collect_lookup_canonical (iiif_base project_segment : String)
    (net : String → NetResult) (items : List String)
    (arr : List (String × String))
    (h : arr.Perm (resolvePhase iiif_base project_segment (sortItems items)).1) :
    ∀ q, (collectInto net [] arr).lookup q =
      if q ∈ ((resolvePhase iiif_base project_segment (sortItems items)).1.map
          Prod.fst) then
        some (fetchValOf iiif_base project_segment net q)
      else none := by
  intro q
  have hv : ∀ pr ∈ arr, build_service_id iiif_base project_segment pr.1 = .ok pr.2 :=
    fun pr hm => resolvePhase_mem iiif_base project_segment _ pr (h.subset hm)
  rw [collectInto_lookup iiif_base project_segment net arr [] q hv]
  by_cases hq : q ∈ arr.map Prod.fst
  · rw [if_pos hq, if_pos ((h.map Prod.fst).mem_iff.mp hq)]
  · rw [if_neg hq, if_neg (fun hh => hq ((h.map Prod.fst).mem_iff.mpr hh))]
    simp

/-- Claim C1 (confirmed): (1) the assembled output is identical under any two
completion orders of the concurrent fetches (any two permutations of the
resolved item list); (2) it depends only on the multiset of input paths; and
(3) the canvases of a produced manifest appear in code-point lexicographic
order of their originating member paths, the fully built ones being exactly
the sorted successful paths. -/
theorem claim_C1 (doc : String) (items : List String)
    (iiif_image_base project_segment pbase : String) (net : String → NetResult)
    (bo : String → BuildOutcome) (arr₁ arr₂ : List (String × String))
    (h₁ : arr₁.Perm (resolvePhase iiif_image_base project_segment
      (sortItems items)).1)
    (h₂ : arr₂.Perm (resolvePhase iiif_image_base project_segment
      (sortItems items)).1) :
    assembleWith doc items iiif_image_base project_segment pbase net bo arr₁ =
      assembleWith doc items iiif_image_base project_segment pbase net bo arr₂
    ∧ (∀ items', items'.Perm items →
        assemble doc items' iiif_image_base project_segment pbase net bo =
          assemble doc items iiif_image_base project_segment pbase net bo)
    ∧ (∀ m cnt fails,
        assemble doc items iiif_image_base project_segment pbase net bo =
          .ok (m, cnt, fails) →
        (m.items.map canvasPath).Pairwise (fun a b => strle a b = true) ∧
        m.items.filterMap fullPathOf =
          (sortItems items).filter
            (succPred (fun q => (collectInto net []
              (resolvePhase iiif_image_base project_segment
                (sortItems items)).1).lookup q) bo)) := by
  refine ⟨?_, ?_, ?_⟩
  · have hf : (fun q => (collectInto net [] arr₁).lookup q) =
        (fun q => (collectInto net [] arr₂).lookup q) := by
      funext q
      rw [collect_lookup_canonical iiif_image_base project_segment net items arr₁
        h₁ q]
      rw [collect_lookup_canonical iiif_image_base project_segment net items arr₂
        h₂ q]
    rw [assembleWith_eq, assembleWith_eq, hf]
  · intro items' hperm
    simp only [assemble]
    rw [assembleWith_eq, assembleWith_eq, sortItems_congr hperm]
  · intro m cnt fails hok
    simp only [assemble] at hok
    rw [assembleWith_eq] at hok
    cases hcr : crashOf (fun q => (collectInto net []
        (resolvePhase iiif_image_base project_segment (sortItems items)).1).lookup q)
        (sortItems items) with
    | some e =>
      rw [hcr] at hok
      simp at hok
    | none =>
      rw [hcr] at hok
      simp only [Except.ok.injEq, Prod.mk.injEq] at hok
      obtain ⟨hm, _, _⟩ := hok
      subst hm
      constructor
      · exact (sortItems_sorted items).sublist (canvasesFor_path_sublist _ _ _ _ _)
      · exact canvasesFor_fullPathOf _ _ _ _ _

/-- Witness for `claim_C1`: two different completion orders of the fetches
give the same assembled result. -/
theorem claim_C1_witness :
    assembleWith "d" ["d/b.jpg", "d/a.jpg"] "https://img" "" ""
      (fun _ => .ok (.obj [("width", .num 3), ("height", .num 4)])) (fun _ => .ok)
      [("d/b.jpg", "https://img/b.jpg"), ("d/a.jpg", "https://img/a.jpg")] =
    assembleWith "d" ["d/b.jpg", "d/a.jpg"] "https://img" "" ""
      (fun _ => .ok (.obj [("width", .num 3), ("height", .num 4)])) (fun _ => .ok)
      [("d/a.jpg", "https://img/a.jpg"), ("d/b.jpg", "https://img/b.jpg")] :=
  (claim_C1 "d" ["d/b.jpg", "d/a.jpg"] "https://img" "" ""
    (fun _ => .ok (.obj [("width", .num 3), ("height", .num 4)])) (fun _ => .ok)
    [("d/b.jpg", "https://img/b.jpg"), ("d/a.jpg", "https://img/a.jpg")]
    [("d/a.jpg", "https://img/a.jpg"), ("d/b.jpg", "https://img/b.jpg")]
    (by decide) (by decide)).1

/-- Claim C2 (as stated) is false on the code: when a builder call raises
after `add_canvas_to_items` appended the canvas (modelled by `throwAfter`),
the rollback decrements only `canvases_created`; the partially built canvas
stays in the manifest's item list, and the next success reuses its index.
In the run below the produced manifest (serialization succeeds, returning
`"J"`) contains two canvases whose indices are `[1, 1]`, not the contiguous
sequence `1, 2`. -/
theorem claim_C2_counterexample :
    (assemble "d" ["d/b.jpg", "d/a.jpg"] "https://img" "" ""
        (fun _ => .ok (.obj [("width", .num 3), ("height", .num 4)]))
        (fun p => if p = "d/a.jpg" then .throwAfter "boom" else .ok)).toOption.map
        (fun r => r.1.items.map canvasIndex) = some [1, 1] ∧
    (make_manifest_for_doc "d" ["d/b.jpg", "d/a.jpg"] "https://img" "" ""
        (fun _ => .ok (.obj [("width", .num 3), ("height", .num 4)]))
        (fun p => if p = "d/a.jpg" then .throwAfter "boom" else .ok)
        (fun _ => .ok "J")).toOption.map (fun r => r.1) = some (some "J") ∧
    ([1, 1] : List Nat) ≠ List.range' 1 2 := by
  refine ⟨rfl, rfl, by decide⟩

/-- Claim C2 (corrected): the indices of the *fully constructed* canvases
form the contiguous sequence `1, 2, …, created_count` with no gaps, and the
fully constructed canvases are exactly the sorted successful paths, so a
failed path consumes no index; but a path whose builder call raises after the
append leaves a half-built canvas in the manifest (its failure is recorded),
and that canvas's index coincides with the next success's index. -/
theorem claim_C2_amended (doc : String) (items : List String)
    (iiif_image_base project_segment pbase : String) (net : String → NetResult)
    (bo : String → BuildOutcome) (m : Manifest) (cnt : Nat)
    (fails : List (String × String))
    (hok : assemble doc items iiif_image_base project_segment pbase net bo =
      .ok (m, cnt, fails)) :
    m.items.filterMap fullIndexOf = List.range' 1 cnt ∧
    m.items.filterMap fullPathOf =
      (sortItems items).filter
        (succPred (fun q => (collectInto net []
          (resolvePhase iiif_image_base project_segment
            (sortItems items)).1).lookup q) bo) ∧
    (∀ i q, Canvas.halfBuilt i q ∈ m.items →
      ∃ msg, bo q = .throwAfter msg ∧
        (q, "manifest/canvas creation error: " ++ msg) ∈ fails) := by
  simp only [assemble] at hok
  rw [assembleWith_eq] at hok
  cases hcr : crashOf (fun q => (collectInto net []
      (resolvePhase iiif_image_base project_segment (sortItems items)).1).lookup q)
      (sortItems items) with
  | some e =>
    rw [hcr] at hok
    simp at hok
  | none =>
    rw [hcr] at hok
    simp only [Except.ok.injEq, Prod.mk.injEq] at hok
    obtain ⟨hm, hcnt, hfails⟩ := hok
    subst hm
    refine ⟨?_, ?_, ?_⟩
    · rw [← hcnt]
      exact canvasesFor_fullIndexOf _ _ _ _ _
    · exact canvasesFor_fullPathOf _ _ _ _ _
    · intro i q hmem
      obtain ⟨msg, hmsg, hf⟩ := canvasesFor_halfBuilt _ _ _ _ _ _ _ hmem
      refine ⟨msg, hmsg, ?_⟩
      rw [← hfails]
      exact List.mem_append_right _ hf

/-- Witness for `claim_C2_amended` at a concrete one-item document. -/
theorem claim_C2_amended_witness :
    ([Canvas.full
        { index := 1, srcPath := "d/a.jpg",
          id := "https://example.org/iiif/canvas/p1", width := 3, height := 4,
          label := "a.jpg", annopageId := "https://example.org/iiif/page/p1/1",
          annotationId := "https://example.org/iiif/annotation/p0001-image",
          annotationTarget := "https://example.org/iiif/canvas/p1",
          motivation := "painting", bodyId := "https://img/a.jpg",
          bodyType := "Image", bodyFormat := "image/jpeg", bodyWidth := 3,
          bodyHeight := 4, serviceId := "https://img/a.jpg",
          serviceType := "ImageService3",
          serviceProfile := .str "level1" }].filterMap fullIndexOf) =
      List.range' 1 1 :=
  (claim_C2_amended "d" ["d/a.jpg"] "https://img" "" ""
    (fun _ => .ok (.obj [("width", .num 3), ("height", .num 4)])) (fun _ => .ok)
    ⟨"https://example.org/iiif/d.json", "d", ["paged"],
      [Canvas.full
        { index := 1, srcPath := "d/a.jpg",
          id := "https://example.org/iiif/canvas/p1", width := 3, height := 4,
          label := "a.jpg", annopageId := "https://example.org/iiif/page/p1/1",
          annotationId := "https://example.org/iiif/annotation/p0001-image",
          annotationTarget := "https://example.org/iiif/canvas/p1",
          motivation := "painting", bodyId := "https://img/a.jpg",
          bodyType := "Image", bodyFormat := "image/jpeg", bodyWidth := 3,
          bodyHeight := 4, serviceId := "https://img/a.jpg",
          serviceType := "ImageService3",
          serviceProfile := .str "level1" }]⟩
    1 [] rfl).1

/-- Claim C3 is right about the intent but the code violates it
(code bug): `width = safe_int(info.get('width', 0), 0)` (line 144) sits
*outside* the per-item `try`, so when a fetched 2xx body is valid JSON but
not a dict (here: the empty JSON array), `info.get` raises an uncaught
`AttributeError`.  The exception aborts the document containing the item, its
sibling item (`d/b.jpg` is never processed), and every sibling document
(`e/b.jpg`'s document is never reached): the whole run dies with no failure
list at all, where the claim (and §7's propagation policy) requires a
per-item `FailureRecord`. -/
theorem claim_C3_code_bug :
    make_manifest_for_doc "d" ["d/a.jpg", "d/b.jpg"] "https://img" "" ""
        (fun u => if u = "https://img/a.jpg/info.json" then .ok (.arr [])
          else .ok (.obj [("width", .num 1), ("height", .num 2)]))
        (fun _ => .ok) (fun _ => .ok "J") = .error (attrErrMsg (.arr [])) ∧
    mainModel ["d/a.jpg", "e/b.jpg"] "out" "https://img" "" ""
        (fun u => if u = "https://img/a.jpg/info.json" then .ok (.arr [])
          else .ok (.obj [("width", .num 1), ("height", .num 2)]))
        (fun _ => .ok) (fun _ => .ok "J") = .error (attrErrMsg (.arr [])) :=
  ⟨rfl, rfl⟩

/-- Claim C4 (as stated) is false on the code in its last part: when
`json_dumps` fails, the document goes down `main`'s FAILED branch, so it is
*not* added to `created_manifests` and its canvas count appears nowhere in
the run summary.  Below one canvas was built (`created_count = 1`) and
serialization failed, yet the created list is empty and the report line
reads FAILED with no count. -/
theorem claim_C4_counterexample :
    (make_manifest_for_doc "d" ["d/a.jpg"] "https://img" "" ""
        (fun _ => .ok (.obj [("width", .num 3), ("height", .num 4)]))
        (fun _ => .ok) (fun _ => .err "boom")).toOption.map
        (fun r => (r.1, r.2.1)) = some (none, 1) ∧
    (mainModel ["d/a.jpg"] "out" "https://img" "" ""
        (fun _ => .ok (.obj [("width", .num 3), ("height", .num 4)]))
        (fun _ => .ok) (fun _ => .err "boom")).toOption.map
        (fun r => (r.created, r.reportLines)) =
      some ([], ["- d: FAILED to create manifest (no json produced)"]) :=
  ⟨rfl, rfl⟩

/-- Claim C4 (corrected): if whole-manifest serialization fails, no output is
produced for the document (`manifest_json = None`, FAILED branch, no file
write), exactly one additional FailureRecord `("manifest_dumps", …)` is
appended to its failure list — but the count of canvases built before the
failure is *not* reported as "created": the document is omitted from
`created_manifests` (whose length is the summary's created count) and its
report line carries no count. -/
theorem claim_C4_amended :
    (∀ (doc : String) (items : List String)
      (iiif_image_base project_segment pbase : String) (net : String → NetResult)
      (bo : String → BuildOutcome) (dumps : Manifest → DumpRes)
      (m : Manifest) (cnt : Nat) (fails : List (String × String)) (e : String),
      assemble doc items iiif_image_base project_segment pbase net bo =
        .ok (m, cnt, fails) →
      dumps m = .err e →
      make_manifest_for_doc doc items iiif_image_base project_segment pbase
        net bo dumps =
        .ok (none, cnt, fails ++ [("manifest_dumps", "json_dumps failed: " ++ e)]))
    ∧
    (∀ (output_dir iiif_image_base project_segment pbase : String)
      (net : String → NetResult) (bo : String → BuildOutcome)
      (dumps : Manifest → DumpRes) (doc : String) (items : List String)
      (rest : List (String × List String)) (cnt : Nat)
      (fl : List (String × String)) (r : RunResult),
      make_manifest_for_doc doc items iiif_image_base project_segment pbase
        net bo dumps = .ok (none, cnt, fl) →
      runDocs output_dir iiif_image_base project_segment pbase net bo dumps
        rest = .ok r →
      runDocs output_dir iiif_image_base project_segment pbase net bo dumps
        ((doc, items) :: rest) =
        .ok ⟨r.created,
             ("- " ++ doc ++ ": FAILED to create manifest (no json produced)")
               :: r.reportLines,
             (fl.map (fun pm => (doc, pm.1, pm.2))) ++ r.failures⟩) := by
  constructor
  · intro doc items ib seg pbase net bo dumps m cnt fails e hok hdump
    simp only [make_manifest_for_doc]
    rw [hok]
    dsimp only
    rw [hdump]
  · intro outDir ib seg pbase net bo dumps doc items rest cnt fl r hmk hrest
    simp only [runDocs]
    rw [hmk]
    dsimp only
    rw [hrest]
    dsimp only
    rw [if_neg (by simp)]

/-- Witness for `claim_C4_amended` at a concrete document whose serialization
fails. -/
theorem claim_C4_amended_witness :
    make_manifest_for_doc "d" [] "b" "" "pb"
      (fun _ => .ok .null) (fun _ => .ok) (fun _ => .err "boom") =
      .ok (none, 0, [("manifest_dumps", "json_dumps failed: boom")]) ∧
    runDocs "out" "b" "" "pb" (fun _ => .ok .null) (fun _ => .ok)
      (fun _ => .err "boom") [("d", [])] =
      .ok ⟨[], ["- d: FAILED to create manifest (no json produced)"],
           [("d", "manifest_dumps", "json_dumps failed: boom")]⟩ := by
  have h1 := claim_C4_amended.1 "d" [] "b" "" "pb" (fun _ => .ok .null)
    (fun _ => .ok) (fun _ => .err "boom")
    ⟨"pb/d.json", "d", ["paged"], []⟩ 0 [] "boom" rfl rfl
  have h2 := claim_C4_amended.2 "out" "b" "" "pb" (fun _ => .ok .null)
    (fun _ => .ok) (fun _ => .err "boom") "d" [] [] 0
    [("manifest_dumps", "json_dumps failed: boom")] ⟨[], [], []⟩ h1 rfl
  exact ⟨h1, h2⟩

/-! ### Claims C8, C9, C10 -/

/-- Claim C8 (confirmed): a successfully processed item appends one fully
constructed canvas whose body media type is `fmtOf`; and `fmtOf` is
`image/tiff` exactly when the lowercased path ends in `.tif`/`.tiff` and the
capability document advertised no non-empty `formats` list — `image/jpeg` in
every other case. -/
theorem claim_C8 :
    (∀ (base : String) (bo : String → BuildOutcome)
      (results : List (String × (Json × String))) (st : AsmState) (p : String)
      (kvs : List (String × Json)) (sid : String),
      results.lookup p = some (.obj kvs, sid) →
      errTruthy (.obj kvs) = false →
      bo p = .ok →
      processItem base bo results st p =
        .ok { st with
              counter := st.counter + 1
              canvases := st.canvases ++
                [.full (mkCanvas base p sid (.obj kvs)
                  (safe_int (jget (.obj kvs) "width" (.num 0)) 0)
                  (safe_int (jget (.obj kvs) "height" (.num 0)) 0)
                  (st.counter + 1))] } ∧
      (mkCanvas base p sid (.obj kvs)
        (safe_int (jget (.obj kvs) "width" (.num 0)) 0)
        (safe_int (jget (.obj kvs) "height" (.num 0)) 0)
        (st.counter + 1)).bodyFormat = fmtOf p (.obj kvs))
    ∧ (∀ (p : String) (info : Json),
        fmtOf p info = "image/tiff" ↔
          (tifExt p = true ∧ hasFormatsList info = false))
    ∧ (∀ (p : String) (info : Json),
        fmtOf p info = "image/jpeg" ∨ fmtOf p info = "image/tiff") := by
  refine ⟨?_, ?_, ?_⟩
  · intro base bo results st p kvs sid hl he hb
    constructor
    · simp [processItem, hl, he, hb]
    · rfl
  · intro p info
    unfold fmtOf
    by_cases hf : hasFormatsList info = true
    · rw [if_pos hf]
      constructor
      · intro h
        exact absurd h (by decide)
      · rintro ⟨_, hfalse⟩
        rw [hf] at hfalse
        exact absurd hfalse (by decide)
    · have hf' : hasFormatsList info = false := Bool.of_not_eq_true hf
      rw [if_neg hf]
      by_cases ht : tifExt p = true
      · rw [if_pos ht]
        exact ⟨fun _ => ⟨ht, hf'⟩, fun _ => rfl⟩
      · have ht' : tifExt p = false := Bool.of_not_eq_true ht
        rw [if_neg ht]
        constructor
        · intro h
          exact absurd h (by decide)
        · rintro ⟨htrue, _⟩
          rw [ht'] at htrue
          exact absurd htrue (by decide)
  · intro p info
    unfold fmtOf
    by_cases hf : hasFormatsList info = true
    · rw [if_pos hf]
      left
      rfl
    · rw [if_neg hf]
      by_cases ht : tifExt p = true
      · rw [if_pos ht]
        right
        rfl
      · rw [if_neg ht]
        left
        rfl

/-- Witness for `claim_C8` at a concrete item (a `.TIF` path with no
advertised formats list, hence `image/tiff`). -/
theorem claim_C8_witness :
    processItem "B/" (fun _ => .ok)
      [("d/a.tif", (.obj [("width", .num 3)], "sid"))]
      ⟨[], 0, []⟩ "d/a.tif" =
      .ok ⟨[.full (mkCanvas "B/" "d/a.tif" "sid" (.obj [("width", .num 3)])
              3 0 1)], 1, []⟩ ∧
    fmtOf "d/a.tif" (.obj [("width", .num 3)]) = "image/tiff" := by
  constructor
  · exact ((claim_C8.1 "B/" (fun _ => .ok)
      [("d/a.tif", (.obj [("width", .num 3)], "sid"))] ⟨[], 0, []⟩ "d/a.tif"
      [("width", .num 3)] "sid" rfl rfl rfl).1).trans (by rfl)
  · exact (claim_C8.2.1 "d/a.tif" (.obj [("width", .num 3)])).mpr
      (by constructor <;> rfl)

/-- Claim C9 (confirmed): (1) a transport/HTTP exception makes
`fetch_info_json` return the `{error, status_code, info_url}` dictionary;
(2) a 2xx response whose parsed body is any value is returned as-is — in
particular a body equal to such an error dictionary is indistinguishable
from a real failure; and (3) the assembler classifies *any* dict with a
truthy `error` key as a fetch failure: the item is excluded (no canvas, no
index) and a FailureRecord is appended, regardless of how the dict arose. -/
theorem claim_C9 :
    (∀ (net : String → NetResult) (sid msg : String) (status : Option Int),
      net (rstripSlashes sid ++ "/info.json") = .exc msg status →
      fetch_info_json net sid =
        errDict msg status (rstripSlashes sid ++ "/info.json"))
    ∧ (∀ (net' : String → NetResult) (sid : String) (body : Json),
      net' (rstripSlashes sid ++ "/info.json") = .ok body →
      fetch_info_json net' sid = body)
    ∧ (∀ (base : String) (bo : String → BuildOutcome)
        (results : List (String × (Json × String))) (st : AsmState)
        (p : String) (info : Json) (sid : String),
        results.lookup p = some (info, sid) →
        errTruthy info = true →
        processItem base bo results st p =
          .ok { st with failures := st.failures ++ [(p, fetchFailMsg info sid)] }) := by
  refine ⟨?_, ?_, ?_⟩
  · intro net sid msg status h
    simp only [fetch_info_json]
    rw [h]
  · intro net' sid body h
    simp only [fetch_info_json]
    rw [h]
  · intro base bo results st p info sid hl he
    simp [processItem, hl, he]

/-- Witness for `claim_C9`: a transport error and a 2xx body carrying the
same error dictionary fetch to the same value, and that value is classified
as a per-item fetch failure. -/
theorem claim_C9_witness :
    fetch_info_json (fun _ => .exc "timeout" none) "https://img/a.jpg" =
      errDict "timeout" none "https://img/a.jpg/info.json" ∧
    fetch_info_json
      (fun _ => .ok (errDict "timeout" none "https://img/a.jpg/info.json"))
      "https://img/a.jpg" =
      errDict "timeout" none "https://img/a.jpg/info.json" ∧
    processItem "B/" (fun _ => .ok)
      [("d/a.jpg", (errDict "timeout" none "https://img/a.jpg/info.json",
        "https://img/a.jpg"))] ⟨[], 0, []⟩ "d/a.jpg" =
      .ok ⟨[], 0, [("d/a.jpg",
        "info.json fetch failed for https://img/a.jpg/info.json: timeout")]⟩ := by
  refine ⟨?_, ?_, ?_⟩
  · exact claim_C9.1 (fun _ => .exc "timeout" none) "https://img/a.jpg"
      "timeout" none rfl
  · exact claim_C9.2.1
      (fun _ => .ok (errDict "timeout" none "https://img/a.jpg/info.json"))
      "https://img/a.jpg" (errDict "timeout" none "https://img/a.jpg/info.json") rfl
  · exact (claim_C9.2.2 "B/" (fun _ => .ok)
      [("d/a.jpg", (errDict "timeout" none "https://img/a.jpg/info.json",
        "https://img/a.jpg"))] ⟨[], 0, []⟩ "d/a.jpg"
      (errDict "timeout" none "https://img/a.jpg/info.json")
      "https://img/a.jpg" rfl rfl).trans (by rfl)

/-- The first character a `dropWhile` keeps fails the predicate. -/
theorem head_dropWhile_false (p : Char → Bool) (l : List Char) (c : Char)
    (h : (l.dropWhile p).head? = some c) : p c = false := by
  induction l with
  | nil => simp at h
  | cons a t ih =>
    by_cases hp : p a
    · rw [List.dropWhile_cons, if_pos hp] at h
      exact ih h
    · rw [List.dropWhile_cons, if_neg hp] at h
      obtain rfl := Option.some.inj h
      exact Bool.of_not_eq_true hp

/-- Claim C10 (confirmed): with an empty presentation base the assembler
does not fail and records no failure — the failure list and created count of
every run are identical under any two configured bases — and every manifest,
canvas, page and annotation id extends the placeholder
`https://example.org/iiif/`; with a non-empty base, the installed base is the
configured value with its trailing slashes removed and exactly one slash
appended (the result never ends in a double slash). -/
theorem claim_C10 :
    (baseOf "" = "https://example.org/iiif/")
    ∧ (∀ pb : String, pb ≠ "" →
        baseOf pb = rstripSlashes pb ++ "/" ∧
        (rstripSlashes pb).data.getLast? ≠ some '/')
    ∧ (∀ (doc : String) (items : List String)
        (iiif_image_base project_segment : String) (net : String → NetResult)
        (bo : String → BuildOutcome) (pb₁ pb₂ : String),
        Except.map (fun (r : Manifest × Nat × List (String × String)) =>
            (r.2.1, r.2.2))
          (assemble doc items iiif_image_base project_segment pb₁ net bo) =
        Except.map (fun r => (r.2.1, r.2.2))
          (assemble doc items iiif_image_base project_segment pb₂ net bo))
    ∧ (∀ (doc : String) (items : List String)
        (iiif_image_base project_segment : String) (net : String → NetResult)
        (bo : String → BuildOutcome) (m : Manifest) (cnt : Nat)
        (fails : List (String × String)),
        assemble doc items iiif_image_base project_segment "" net bo =
          .ok (m, cnt, fails) →
        (∃ t, m.id = "https://example.org/iiif/" ++ t) ∧
        ∀ c : CanvasFull, Canvas.full c ∈ m.items →
          (∃ t, c.id = "https://example.org/iiif/" ++ t) ∧
          (∃ t, c.annopageId = "https://example.org/iiif/" ++ t) ∧
          (∃ t, c.annotationId = "https://example.org/iiif/" ++ t)) := by
  refine ⟨rfl, ?_, ?_, ?_⟩
  · intro pb hpb
    constructor
    · simp [baseOf, hpb]
    · intro hlast
      have he : (rstripSlashes pb).data =
          (pb.data.reverse.dropWhile (fun c => c = '/')).reverse := rfl
      rw [he, List.getLast?_reverse] at hlast
      have hf := head_dropWhile_false (fun c => c = '/') pb.data.reverse '/' hlast
      simp at hf
  · intro doc items ib seg net bo pb₁ pb₂
    simp only [assemble]
    rw [assembleWith_eq, assembleWith_eq]
    cases hcr : crashOf (fun q => (collectInto net []
        (resolvePhase ib seg (sortItems items)).1).lookup q) (sortItems items) <;>
      simp [Except.map]
  · intro doc items ib seg net bo m cnt fails hok
    simp only [assemble] at hok
    rw [assembleWith_eq] at hok
    cases hcr : crashOf (fun q => (collectInto net []
        (resolvePhase ib seg (sortItems items)).1).lookup q) (sortItems items) with
    | some e =>
      rw [hcr] at hok
      simp at hok
    | none =>
      rw [hcr] at hok
      simp only [Except.ok.injEq, Prod.mk.injEq] at hok
      obtain ⟨hm, _, _⟩ := hok
      subst hm
      constructor
      · exact ⟨doc ++ ".json", by rw [show baseOf "" = "https://example.org/iiif/"
          from rfl, String.append_assoc]⟩
      · intro c hmem
        have h := canvasesFor_ids (baseOf "") bo _ 0 (sortItems items) c hmem
        rw [show baseOf "" = "https://example.org/iiif/" from rfl] at h
        exact h

/-- Witness for `claim_C10` at concrete configurations. -/
theorem claim_C10_witness :
    baseOf "x//" = "x/" ∧
    Except.map (fun (r : Manifest × Nat × List (String × String)) =>
        (r.2.1, r.2.2))
      (assemble "d" ["d/a.jpg"] "https://img" ""
        "https://pres.example" (fun _ => .ok (.obj [("width", .num 3)]))
        (fun _ => .ok)) =
    Except.map (fun r => (r.2.1, r.2.2))
      (assemble "d" ["d/a.jpg"] "https://img" "" ""
        (fun _ => .ok (.obj [("width", .num 3)])) (fun _ => .ok)) ∧
    (∃ t, ("https://example.org/iiif/d.json" : String) =
      "https://example.org/iiif/" ++ t) := by
  refine ⟨?_, ?_, ?_⟩
  · exact ((claim_C10.2.1 "x//" (by decide)).1).trans (by rfl)
  · exact claim_C10.2.2.1 "d" ["d/a.jpg"] "https://img" ""
      (fun _ => .ok (.obj [("width", .num 3)])) (fun _ => .ok)
      "https://pres.example" ""
  · exact (claim_C10.2.2.2 "d" [] "https://img" ""
      (fun _ => .ok (.obj [("width", .num 3)])) (fun _ => .ok)
      ⟨"https://example.org/iiif/d.json", "d", ["paged"], []⟩ 0 [] rfl).1
